import Mathlib

/-!
# Parallel file tests of HDF5 (`testpar/t_file.c`)

A shallow embedding of the two scenarios of `testpar/t_file.c`,
`test_split_comm_access` and `test_file_properties`, and of the properties
their specification states about them.

Both scenarios are straight-line C code over an external MPI runtime and the
HDF5 library.  A scenario is embedded as a program in a small logging monad:
every external call appends an event (the call with its arguments and its
return value) to the log of the calling process, and takes its return value
from an environment record that has one field per call site.  The assertion
macro `VRFY` records a failed assertion and may end the process.
-/

namespace TFile

/-! ## Events -/

/-- Communicator handles of the scenarios: `MPI_COMM_WORLD` (`world`), and the
handle that `MPI_Comm_split` stores in the local variable `comm` of
`test_split_comm_access` (`child`). -/
inductive Comm where
  | world
  | child
  deriving DecidableEq, Repr

/-- External calls of `t_file.c` into the MPI runtime and the storage engine, with
the arguments that vary.  The file name, the `MPI_Info` object (always
`MPI_INFO_NULL`), the access flags, `H5P_DEFAULT` and `facc_type` are the same
at every call and are left out.  `create_faccess_plist` is a helper of the test
suite; it is logged as one call.  `GetTestParameters`, which hands the file
name over, and the `printf` under `VERBOSE_MED` are calls into the test driver
and are not logged. -/
inductive Op where
  | MPI_Comm_size (c : Comm)
  | MPI_Comm_rank (c : Comm)
  | MPI_Comm_split (c : Comm) (color key : Int)
  | MPI_Barrier (c : Comm)
  | MPI_Comm_free (c : Comm)
  | MPI_File_delete
  | create_faccess_plist (c : Comm)
  | H5Pcreate
  | H5Pset_fapl_mpio (fapl : Int) (c : Comm)
  | H5Pset_coll_metadata_write (fapl : Int) (v : Bool)
  | H5Pset_all_coll_metadata_ops (fapl : Int) (v : Bool)
  | H5Pget_coll_metadata_write (fapl : Int)
  | H5Pget_all_coll_metadata_ops (fapl : Int)
  | H5Fcreate (fapl : Int)
  | H5Fopen (fapl : Int)
  | H5Fget_access_plist (fid : Int)
  | H5Fclose (fid : Int)
  | H5Pclose (fapl : Int)
  deriving DecidableEq, Repr

/-- One logged call: the call and the value it returned. -/
structure Ev where
  op : Op
  ret : Int
  deriving DecidableEq, Repr

/-! ## The logging monad and `VRFY` -/

/-- What a process has done so far: the calls it issued, oldest first, and the
messages of the assertions that failed. -/
structure Log where
  calls : List Ev
  failures : List String
  deriving DecidableEq, Repr

/-- Outcome of running a piece of a scenario: it ran to its end (`done`), or a
failed assertion ended the process (`aborted`). -/
inductive Res (α : Type) where
  | done (a : α) (l : Log)
  | aborted (l : Log)
  deriving Repr

/-- The log of an outcome. -/
def Res.log {α : Type} : Res α → Log
  | .done _ l => l
  | .aborted l => l

/-- Whether the scenario returned to its caller. -/
def Res.returned {α : Type} : Res α → Bool
  | .done _ _ => true
  | .aborted _ => false

/-- Programs: log transformers that may end the process. -/
def M (α : Type) : Type := Log → Res α

/-- Sequencing: the rest of the program runs only if the first part returned. -/
def M.bind {α β : Type} (m : M α) (f : α → M β) : M β := fun l =>
  match m l with
  | .done a l1 => f a l1
  | .aborted l1 => .aborted l1

/-- A program that does nothing and returns `a`. -/
def M.pure {α : Type} (a : α) : M α := fun l => .done a l

instance : Monad M where
  pure := M.pure
  bind := M.bind

/-- An external call: logged with its return value `r`, which is handed back. -/
def call (o : Op) (r : Int) : M Int := fun l =>
  .done r { l with calls := l.calls ++ [⟨o, r⟩] }

/-- An external call with an output parameter (`H5Pget_*`): logged with its
return value `r`; the pair of `r` and the value `out` written through the
pointer is handed back. -/
def callOut (o : Op) (r : Int) (out : Bool) : M (Int × Bool) := fun l =>
  .done (r, out) { l with calls := l.calls ++ [⟨o, r⟩] }

/-- The kinds of failed assertion the specification tells apart (section 7):
a communicator or barrier primitive failed, an engine call failed, or a
queried flag differs from the expected value. -/
inductive Fault where
  | runtime
  | engine
  | mismatch
  deriving DecidableEq, Repr

/-- Modelled from the spec: the assertion macro `VRFY(val, mesg)`, which
`testphdf5.h` defines and which is not among the sources.  When `val` holds
nothing is recorded.  When it fails the message is recorded as an assertion
failure; whether the process then goes on with the next statement or ends is
not visible in `t_file.c`, so it is the parameter `abortsOn`, asked with the
kind of the assertion (section 7 of the specification: runtime and engine
faults end the scenario, a policy mismatch is recorded and the scenario goes
on). -/
def VRFY (abortsOn : Fault → Bool) (k : Fault) (val : Bool) (mesg : String) : M Unit := fun l =>
  if val then .done () l
  else
    let l1 : Log := { l with failures := l.failures ++ [mesg] }
    if abortsOn k then .aborted l1 else .done () l1

/-- The behaviour of `VRFY` that section 7 of the specification describes. -/
def specAborts : Fault → Bool
  | .runtime => true
  | .engine => true
  | .mismatch => false

/-- The constant `MPI_SUCCESS` of `mpi.h`. -/
def MPI_SUCCESS : Int := 0

/-- The empty log a scenario starts from. -/
def Log.empty : Log := ⟨[], []⟩

/-! ## `test_split_comm_access` -/

/-- What the environment of one process answers to `test_split_comm_access`:
one field per call site, named after the variable that receives the value. -/
structure SplitEnv where
  mpi_size : Int
  mpi_rank : Int
  mrc_split : Int
  newprocs : Int
  newrank : Int
  mrc_barrier : Int
  sub_mpi_rank : Int
  acc_tpl : Int
  fid : Int
  ret_pclose : Int
  ret_fclose : Int
  mrc_delete : Int
  mrc_free : Int
  mrc_final : Int

/-- Embedding of `test_split_comm_access` (`t_file.c`, lines 33-95).  The C
remainder `mpi_rank%2` truncates, hence `Int.tmod`; `if (is_old)` tests for a
nonzero value. -/
def test_split_comm_access (abortsOn : Fault → Bool) (e : SplitEnv) : M Unit := do
  let _mpi_size ← call (.MPI_Comm_size .world) e.mpi_size
  let mpi_rank ← call (.MPI_Comm_rank .world) e.mpi_rank
  let is_old := Int.tmod mpi_rank 2
  let mrc ← call (.MPI_Comm_split .world is_old mpi_rank) e.mrc_split
  VRFY abortsOn .runtime (mrc == MPI_SUCCESS) ""
  let _newprocs ← call (.MPI_Comm_size .child) e.newprocs
  let _newrank ← call (.MPI_Comm_rank .child) e.newrank
  if is_old ≠ 0 then
    let mrc ← call (.MPI_Barrier .child) e.mrc_barrier
    VRFY abortsOn .runtime (mrc == MPI_SUCCESS) ""
  else
    let sub_mpi_rank ← call (.MPI_Comm_rank .child) e.sub_mpi_rank
    let acc_tpl ← call (.create_faccess_plist .child) e.acc_tpl
    VRFY abortsOn .engine (decide (acc_tpl ≥ 0)) ""
    let fid ← call (.H5Fcreate acc_tpl) e.fid
    VRFY abortsOn .engine (decide (fid ≥ 0)) "H5Fcreate succeeded"
    let ret ← call (.H5Pclose acc_tpl) e.ret_pclose
    VRFY abortsOn .engine (decide (ret ≥ 0)) ""
    let ret ← call (.H5Fclose fid) e.ret_fclose
    VRFY abortsOn .engine (decide (ret ≥ 0)) ""
    if sub_mpi_rank == 0 then
      let _mrc ← call .MPI_File_delete e.mrc_delete
      pure ()
  let mrc ← call (.MPI_Comm_free .child) e.mrc_free
  VRFY abortsOn .runtime (mrc == MPI_SUCCESS) "MPI_Comm_free succeeded"
  let mrc ← call (.MPI_Barrier .world) e.mrc_final
  VRFY abortsOn .runtime (mrc == MPI_SUCCESS) "final MPI_Barrier succeeded"

/-! ## `test_file_properties` -/

/-- What the environment answers to `test_file_properties`: one field per call
site, in source order.  `is_coll1` to `is_coll8` are the values the eight
`H5Pget_*` calls write to `is_coll`. -/
structure PropEnv where
  mpi_size : Int
  mpi_rank : Int
  fapl_id : Int
  ret_set1 : Int
  fid1 : Int
  ret_get1 : Int
  is_coll1 : Bool
  ret_get2 : Int
  is_coll2 : Bool
  ret_fclose1 : Int
  ret_set2 : Int
  fid2 : Int
  ret_get3 : Int
  is_coll3 : Bool
  ret_get4 : Int
  is_coll4 : Bool
  ret_fclose2 : Int
  ret_set3 : Int
  ret_setw : Int
  ret_setr : Int
  fid3 : Int
  ret_get5 : Int
  is_coll5 : Bool
  ret_get6 : Int
  is_coll6 : Bool
  ret_pclose1 : Int
  fapl_id2 : Int
  ret_get7 : Int
  is_coll7 : Bool
  ret_get8 : Int
  is_coll8 : Bool
  ret_fclose3 : Int
  ret_pclose2 : Int

/-- Embedding of `test_file_properties` (`t_file.c`, lines 97-212); `comm` is
`MPI_COMM_WORLD` throughout.  The store `fapl_id = -1` of line 188 is
overwritten by the next statement and is left out. -/
def test_file_properties (abortsOn : Fault → Bool) (e : PropEnv) : M Unit := do
  let comm := Comm.world
  let _mpi_size ← call (.MPI_Comm_size .world) e.mpi_size
  let _mpi_rank ← call (.MPI_Comm_rank .world) e.mpi_rank
  -- setup file access plist
  let fapl_id ← call .H5Pcreate e.fapl_id
  VRFY abortsOn .engine (decide (fapl_id ≥ 0)) "H5Pcreate"
  let ret ← call (.H5Pset_fapl_mpio fapl_id comm) e.ret_set1
  VRFY abortsOn .engine (decide (ret ≥ 0)) "H5Pset_fapl_mpio"
  -- create the file
  let fid ← call (.H5Fcreate fapl_id) e.fid1
  VRFY abortsOn .engine (decide (fid ≥ 0)) "H5Fcreate succeeded"
  let (ret, is_coll) ← callOut (.H5Pget_coll_metadata_write fapl_id) e.ret_get1 e.is_coll1
  VRFY abortsOn .engine (decide (ret ≥ 0)) "H5Pget_coll_metadata_write succeeded"
  VRFY abortsOn .mismatch (is_coll == false) "Incorrect property setting for coll metadata writes"
  let (ret, is_coll) ← callOut (.H5Pget_all_coll_metadata_ops fapl_id) e.ret_get2 e.is_coll2
  VRFY abortsOn .engine (decide (ret ≥ 0)) "H5Pget_all_coll_metadata_ops succeeded"
  VRFY abortsOn .mismatch (is_coll == false)
    "Incorrect property setting for coll metadata API calls requirement"
  let ret ← call (.H5Fclose fid) e.ret_fclose1
  VRFY abortsOn .engine (decide (ret ≥ 0)) "H5Fclose succeeded"
  -- open the file with the MPI-IO driver
  let ret ← call (.H5Pset_fapl_mpio fapl_id comm) e.ret_set2
  VRFY abortsOn .engine (decide (ret ≥ 0)) "H5Pset_fapl_mpio failed"
  let fid ← call (.H5Fopen fapl_id) e.fid2
  VRFY abortsOn .engine (decide (fid ≥ 0)) "H5Fcreate succeeded"
  let (ret, is_coll) ← callOut (.H5Pget_coll_metadata_write fapl_id) e.ret_get3 e.is_coll3
  VRFY abortsOn .engine (decide (ret ≥ 0)) "H5Pget_coll_metadata_write succeeded"
  VRFY abortsOn .mismatch (is_coll == false) "Incorrect property setting for coll metadata writes"
  let (ret, is_coll) ← callOut (.H5Pget_all_coll_metadata_ops fapl_id) e.ret_get4 e.is_coll4
  VRFY abortsOn .engine (decide (ret ≥ 0)) "H5Pget_all_coll_metadata_ops succeeded"
  VRFY abortsOn .mismatch (is_coll == false)
    "Incorrect property setting for coll metadata API calls requirement"
  let ret ← call (.H5Fclose fid) e.ret_fclose2
  VRFY abortsOn .engine (decide (ret ≥ 0)) "H5Fclose succeeded"
  -- open the file with the MPI-IO driver w collective settings
  let ret ← call (.H5Pset_fapl_mpio fapl_id comm) e.ret_set3
  VRFY abortsOn .engine (decide (ret ≥ 0)) "H5Pset_fapl_mpio failed"
  let ret ← call (.H5Pset_coll_metadata_write fapl_id true) e.ret_setw
  VRFY abortsOn .engine (decide (ret ≥ 0)) "H5Pget_coll_metadata_write succeeded"
  let ret ← call (.H5Pset_all_coll_metadata_ops fapl_id true) e.ret_setr
  VRFY abortsOn .engine (decide (ret ≥ 0)) "H5Pget_all_coll_metadata_ops succeeded"
  let fid ← call (.H5Fopen fapl_id) e.fid3
  VRFY abortsOn .engine (decide (fid ≥ 0)) "H5Fcreate succeeded"
  let (ret, is_coll) ← callOut (.H5Pget_coll_metadata_write fapl_id) e.ret_get5 e.is_coll5
  VRFY abortsOn .engine (decide (ret ≥ 0)) "H5Pget_coll_metadata_write succeeded"
  VRFY abortsOn .mismatch (is_coll == true) "Incorrect property setting for coll metadata writes"
  let (ret, is_coll) ← callOut (.H5Pget_all_coll_metadata_ops fapl_id) e.ret_get6 e.is_coll6
  VRFY abortsOn .engine (decide (ret ≥ 0)) "H5Pget_all_coll_metadata_ops succeeded"
  VRFY abortsOn .mismatch (is_coll == true)
    "Incorrect property setting for coll metadata API calls requirement"
  -- close fapl and retrieve it from file
  let ret ← call (.H5Pclose fapl_id) e.ret_pclose1
  VRFY abortsOn .engine (decide (ret ≥ 0)) "H5Pclose succeeded"
  let fapl_id ← call (.H5Fget_access_plist fid) e.fapl_id2
  VRFY abortsOn .engine (decide (fapl_id ≥ 0)) "H5P_FILE_ACCESS"
  let (ret, is_coll) ← callOut (.H5Pget_coll_metadata_write fapl_id) e.ret_get7 e.is_coll7
  VRFY abortsOn .engine (decide (ret ≥ 0)) "H5Pget_coll_metadata_write succeeded"
  VRFY abortsOn .mismatch (is_coll == true) "Incorrect property setting for coll metadata writes"
  let (ret, is_coll) ← callOut (.H5Pget_all_coll_metadata_ops fapl_id) e.ret_get8 e.is_coll8
  VRFY abortsOn .engine (decide (ret ≥ 0)) "H5Pget_all_coll_metadata_ops succeeded"
  VRFY abortsOn .mismatch (is_coll == true)
    "Incorrect property setting for coll metadata API calls requirement"
  -- close file
  let ret ← call (.H5Fclose fid) e.ret_fclose3
  VRFY abortsOn .engine (decide (ret ≥ 0)) "H5Fclose succeeded"
  -- release file-access plist
  let ret ← call (.H5Pclose fapl_id) e.ret_pclose2
  VRFY abortsOn .engine (decide (ret ≥ 0)) "H5Pclose succeeded"

/-! ## Statement lists

Both scenarios are sequences of calls and assertions; the only branching is on
values the environment supplies.  `splitStmts` and `propStmts` list the
statements a scenario goes through, and `exec` runs such a list in the monad;
`test_split_comm_access_eq` and `test_file_properties_eq` below prove that this
is the scenario itself. -/

/-- One statement of a scenario: a call with the value it returns, or a `VRFY`
with its kind, the value of its condition and its message. -/
inductive Stmt where
  | call (o : Op) (r : Int)
  | vrfy (k : Fault) (val : Bool) (mesg : String)
  deriving DecidableEq, Repr

/-- Runs a list of statements, one after the other. -/
def exec (abortsOn : Fault → Bool) : List Stmt → M Unit
  | [] => M.pure ()
  | .call o r :: rest => M.bind (call o r) fun _ => exec abortsOn rest
  | .vrfy k val mesg :: rest => M.bind (VRFY abortsOn k val mesg) fun _ => exec abortsOn rest

/-- Whether a statement records no failure: a call, or a `VRFY` whose condition
holds. -/
def Stmt.holds : Stmt → Bool
  | .call _ _ => true
  | .vrfy _ val _ => val

/-- Whether a statement ends the process: a failed `VRFY` of a kind that aborts. -/
def Stmt.stops (abortsOn : Fault → Bool) : Stmt → Bool
  | .call _ _ => false
  | .vrfy k val _ => !val && abortsOn k

/-- The calls of a list of statements. -/
def callsOf : List Stmt → List Ev
  | [] => []
  | .call o r :: rest => ⟨o, r⟩ :: callsOf rest
  | .vrfy _ _ _ :: rest => callsOf rest

/-- The messages of the failed assertions of a list of statements. -/
def failuresOf : List Stmt → List String
  | [] => []
  | .call _ _ :: rest => failuresOf rest
  | .vrfy _ val mesg :: rest => if val then failuresOf rest else mesg :: failuresOf rest

/-- Rewrites the logged calls of a statement with `g`, which may change return
values only; assertions are left alone. -/
def Stmt.relabel (g : Ev → Ev) : Stmt → Stmt
  | .call o r => .call (g ⟨o, r⟩).op (g ⟨o, r⟩).ret
  | .vrfy k val mesg => .vrfy k val mesg

/-- Rewrites the logged calls of a log with `g`. -/
def Log.relabel (g : Ev → Ev) (l : Log) : Log :=
  { l with calls := l.calls.map g }

/-- Rewrites the logged calls of an outcome with `g`. -/
def Res.relabel (g : Ev → Ev) : Res Unit → Res Unit
  | .done a l => .done a (l.relabel g)
  | .aborted l => .aborted (l.relabel g)

/-- The statements `test_split_comm_access` goes through in environment `e`. -/
def splitStmts (e : SplitEnv) : List Stmt :=
  [ .call (.MPI_Comm_size .world) e.mpi_size,
    .call (.MPI_Comm_rank .world) e.mpi_rank,
    .call (.MPI_Comm_split .world (Int.tmod e.mpi_rank 2) e.mpi_rank) e.mrc_split,
    .vrfy .runtime (e.mrc_split == MPI_SUCCESS) "",
    .call (.MPI_Comm_size .child) e.newprocs,
    .call (.MPI_Comm_rank .child) e.newrank ] ++
  (if Int.tmod e.mpi_rank 2 ≠ 0 then
    [ .call (.MPI_Barrier .child) e.mrc_barrier,
      .vrfy .runtime (e.mrc_barrier == MPI_SUCCESS) "" ]
  else
    [ .call (.MPI_Comm_rank .child) e.sub_mpi_rank,
      .call (.create_faccess_plist .child) e.acc_tpl,
      .vrfy .engine (decide (e.acc_tpl ≥ 0)) "",
      .call (.H5Fcreate e.acc_tpl) e.fid,
      .vrfy .engine (decide (e.fid ≥ 0)) "H5Fcreate succeeded",
      .call (.H5Pclose e.acc_tpl) e.ret_pclose,
      .vrfy .engine (decide (e.ret_pclose ≥ 0)) "",
      .call (.H5Fclose e.fid) e.ret_fclose,
      .vrfy .engine (decide (e.ret_fclose ≥ 0)) "" ] ++
    (if e.sub_mpi_rank == 0 then [ .call .MPI_File_delete e.mrc_delete ] else [])) ++
  [ .call (.MPI_Comm_free .child) e.mrc_free,
    .vrfy .runtime (e.mrc_free == MPI_SUCCESS) "MPI_Comm_free succeeded",
    .call (.MPI_Barrier .world) e.mrc_final,
    .vrfy .runtime (e.mrc_final == MPI_SUCCESS) "final MPI_Barrier succeeded" ]

/-- The statements `test_file_properties` goes through in environment `e`. -/
def propStmts (e : PropEnv) : List Stmt :=
  [ .call (.MPI_Comm_size .world) e.mpi_size,
    .call (.MPI_Comm_rank .world) e.mpi_rank,
    .call .H5Pcreate e.fapl_id,
    .vrfy .engine (decide (e.fapl_id ≥ 0)) "H5Pcreate",
    .call (.H5Pset_fapl_mpio e.fapl_id .world) e.ret_set1,
    .vrfy .engine (decide (e.ret_set1 ≥ 0)) "H5Pset_fapl_mpio",
    .call (.H5Fcreate e.fapl_id) e.fid1,
    .vrfy .engine (decide (e.fid1 ≥ 0)) "H5Fcreate succeeded",
    .call (.H5Pget_coll_metadata_write e.fapl_id) e.ret_get1,
    .vrfy .engine (decide (e.ret_get1 ≥ 0)) "H5Pget_coll_metadata_write succeeded",
    .vrfy .mismatch (e.is_coll1 == false) "Incorrect property setting for coll metadata writes",
    .call (.H5Pget_all_coll_metadata_ops e.fapl_id) e.ret_get2,
    .vrfy .engine (decide (e.ret_get2 ≥ 0)) "H5Pget_all_coll_metadata_ops succeeded",
    .vrfy .mismatch (e.is_coll2 == false)
      "Incorrect property setting for coll metadata API calls requirement",
    .call (.H5Fclose e.fid1) e.ret_fclose1,
    .vrfy .engine (decide (e.ret_fclose1 ≥ 0)) "H5Fclose succeeded",
    .call (.H5Pset_fapl_mpio e.fapl_id .world) e.ret_set2,
    .vrfy .engine (decide (e.ret_set2 ≥ 0)) "H5Pset_fapl_mpio failed",
    .call (.H5Fopen e.fapl_id) e.fid2,
    .vrfy .engine (decide (e.fid2 ≥ 0)) "H5Fcreate succeeded",
    .call (.H5Pget_coll_metadata_write e.fapl_id) e.ret_get3,
    .vrfy .engine (decide (e.ret_get3 ≥ 0)) "H5Pget_coll_metadata_write succeeded",
    .vrfy .mismatch (e.is_coll3 == false) "Incorrect property setting for coll metadata writes",
    .call (.H5Pget_all_coll_metadata_ops e.fapl_id) e.ret_get4,
    .vrfy .engine (decide (e.ret_get4 ≥ 0)) "H5Pget_all_coll_metadata_ops succeeded",
    .vrfy .mismatch (e.is_coll4 == false)
      "Incorrect property setting for coll metadata API calls requirement",
    .call (.H5Fclose e.fid2) e.ret_fclose2,
    .vrfy .engine (decide (e.ret_fclose2 ≥ 0)) "H5Fclose succeeded",
    .call (.H5Pset_fapl_mpio e.fapl_id .world) e.ret_set3,
    .vrfy .engine (decide (e.ret_set3 ≥ 0)) "H5Pset_fapl_mpio failed",
    .call (.H5Pset_coll_metadata_write e.fapl_id true) e.ret_setw,
    .vrfy .engine (decide (e.ret_setw ≥ 0)) "H5Pget_coll_metadata_write succeeded",
    .call (.H5Pset_all_coll_metadata_ops e.fapl_id true) e.ret_setr,
    .vrfy .engine (decide (e.ret_setr ≥ 0)) "H5Pget_all_coll_metadata_ops succeeded",
    .call (.H5Fopen e.fapl_id) e.fid3,
    .vrfy .engine (decide (e.fid3 ≥ 0)) "H5Fcreate succeeded",
    .call (.H5Pget_coll_metadata_write e.fapl_id) e.ret_get5,
    .vrfy .engine (decide (e.ret_get5 ≥ 0)) "H5Pget_coll_metadata_write succeeded",
    .vrfy .mismatch (e.is_coll5 == true) "Incorrect property setting for coll metadata writes",
    .call (.H5Pget_all_coll_metadata_ops e.fapl_id) e.ret_get6,
    .vrfy .engine (decide (e.ret_get6 ≥ 0)) "H5Pget_all_coll_metadata_ops succeeded",
    .vrfy .mismatch (e.is_coll6 == true)
      "Incorrect property setting for coll metadata API calls requirement",
    .call (.H5Pclose e.fapl_id) e.ret_pclose1,
    .vrfy .engine (decide (e.ret_pclose1 ≥ 0)) "H5Pclose succeeded",
    .call (.H5Fget_access_plist e.fid3) e.fapl_id2,
    .vrfy .engine (decide (e.fapl_id2 ≥ 0)) "H5P_FILE_ACCESS",
    .call (.H5Pget_coll_metadata_write e.fapl_id2) e.ret_get7,
    .vrfy .engine (decide (e.ret_get7 ≥ 0)) "H5Pget_coll_metadata_write succeeded",
    .vrfy .mismatch (e.is_coll7 == true) "Incorrect property setting for coll metadata writes",
    .call (.H5Pget_all_coll_metadata_ops e.fapl_id2) e.ret_get8,
    .vrfy .engine (decide (e.ret_get8 ≥ 0)) "H5Pget_all_coll_metadata_ops succeeded",
    .vrfy .mismatch (e.is_coll8 == true)
      "Incorrect property setting for coll metadata API calls requirement",
    .call (.H5Fclose e.fid3) e.ret_fclose3,
    .vrfy .engine (decide (e.ret_fclose3 ≥ 0)) "H5Fclose succeeded",
    .call (.H5Pclose e.fapl_id2) e.ret_pclose2,
    .vrfy .engine (decide (e.ret_pclose2 ≥ 0)) "H5Pclose succeeded" ]

/-! ## Runs and what is read off their logs -/

/-- Run of `test_split_comm_access` by one process, from the empty log. -/
def runSplit (abortsOn : Fault → Bool) (e : SplitEnv) : Res Unit :=
  test_split_comm_access abortsOn e Log.empty

/-- The calls of an outcome, without their return values. -/
def Res.ops (r : Res Unit) : List Op := r.log.calls.map Ev.op

/-- The failure-free path of `test_split_comm_access`: every call whose result is
asserted succeeds.  The result of `MPI_File_delete` is not asserted and is not
constrained. -/
def SplitEnv.ok (e : SplitEnv) : Prop :=
  e.mrc_split = MPI_SUCCESS ∧ e.mrc_barrier = MPI_SUCCESS ∧ 0 ≤ e.acc_tpl ∧ 0 ≤ e.fid ∧
  0 ≤ e.ret_pclose ∧ 0 ≤ e.ret_fclose ∧ e.mrc_free = MPI_SUCCESS ∧ e.mrc_final = MPI_SUCCESS

instance (e : SplitEnv) : Decidable e.ok := by
  unfold SplitEnv.ok; infer_instance

/-- The color argument of the first `MPI_Comm_split` among the calls. -/
def splitColor : List Op → Option Int
  | [] => none
  | .MPI_Comm_split _ color _ :: _ => some color
  | _ :: rest => splitColor rest

/-- Whether two processes end up in the same child group, read off their logs.
By the contract of the group split (`MPI_Comm_split`; section 4.1 of the
specification) they do exactly when they passed the same key (the color
argument). -/
def sameChildGroup (l1 l2 : List Op) : Bool :=
  match splitColor l1, splitColor l2 with
  | some a, some b => a == b
  | _, _ => false

/-- Local inquiries, which neither synchronise nor change anything. -/
def Op.isInquiry : Op → Bool
  | .MPI_Comm_size _ => true
  | .MPI_Comm_rank _ => true
  | _ => false

/-- Calls into the storage engine or on the file: policy objects, file handles
and the file delete. -/
def Op.onFile : Op → Bool
  | .MPI_Comm_size _ => false
  | .MPI_Comm_rank _ => false
  | .MPI_Comm_split _ _ _ => false
  | .MPI_Barrier _ => false
  | .MPI_Comm_free _ => false
  | _ => true

/-- File creation. -/
def Op.isFileCreate : Op → Bool
  | .H5Fcreate _ => true
  | _ => false

/-- File close. -/
def Op.isFileClose : Op → Bool
  | .H5Fclose _ => true
  | _ => false

/-- The acting branch shows in a log as a file create and a file close. -/
def actsOnFile (l : List Op) : Bool :=
  l.any Op.isFileCreate && l.any Op.isFileClose

/-- The passive branch shows in a log as a barrier on the child group and no call
on a file or policy object. -/
def passiveOnly (l : List Op) : Bool :=
  l.contains (.MPI_Barrier .child) && !l.any Op.onFile

/-- The calls after the first `MPI_Comm_free` of the child group. -/
def afterFree : List Op → List Op
  | [] => []
  | o :: rest => if o = .MPI_Comm_free .child then rest else afterFree rest

/-- Replaces the return value of every `MPI_File_delete` by `MPI_SUCCESS`. -/
def fixDelete (ev : Ev) : Ev :=
  if ev.op = .MPI_File_delete then ⟨ev.op, MPI_SUCCESS⟩ else ev

/-- Whether the target file exists after the calls of a log, given whether it did
before: it exists after a file create and is absent after the file delete
(section 8 of the specification); no other call of the scenarios changes
whether it exists. -/
def fileExistsAfter : List Op → Bool → Bool
  | [], s => s
  | .H5Fcreate _ :: rest, _ => fileExistsAfter rest true
  | .MPI_File_delete :: rest, _ => fileExistsAfter rest false
  | _ :: rest, s => fileExistsAfter rest s

/-- A failure-free environment for the process of world rank `r` among `n`: the
child group has the ranks of the parity of `r`, ordered by world rank, and the
engine hands out the handles 1 and 2. -/
def splitEnvOf (n r : Nat) : SplitEnv :=
  { mpi_size := n, mpi_rank := r, mrc_split := MPI_SUCCESS,
    newprocs := ((n + 1 - r % 2) / 2 : Nat), newrank := (r / 2 : Nat),
    mrc_barrier := MPI_SUCCESS, sub_mpi_rank := (r / 2 : Nat), acc_tpl := 1, fid := 2,
    ret_pclose := 0, ret_fclose := 0, mrc_delete := MPI_SUCCESS, mrc_free := MPI_SUCCESS,
    mrc_final := MPI_SUCCESS }

/-- Run of `test_file_properties` by one process, from the empty log. -/
def runProps (abortsOn : Fault → Bool) (e : PropEnv) : Res Unit :=
  test_file_properties abortsOn e Log.empty

/-- Every engine call of `test_file_properties` succeeds: every handle and every
return value that is asserted is nonnegative.  The flags are not constrained. -/
def PropEnv.engineOk (e : PropEnv) : Prop :=
  (0 ≤ e.fapl_id ∧ 0 ≤ e.ret_set1 ∧ 0 ≤ e.fid1 ∧ 0 ≤ e.ret_get1 ∧ 0 ≤ e.ret_get2 ∧
    0 ≤ e.ret_fclose1) ∧
  (0 ≤ e.ret_set2 ∧ 0 ≤ e.fid2 ∧ 0 ≤ e.ret_get3 ∧ 0 ≤ e.ret_get4 ∧ 0 ≤ e.ret_fclose2) ∧
  (0 ≤ e.ret_set3 ∧ 0 ≤ e.ret_setw ∧ 0 ≤ e.ret_setr ∧ 0 ≤ e.fid3 ∧ 0 ≤ e.ret_get5 ∧
    0 ≤ e.ret_get6) ∧
  (0 ≤ e.ret_pclose1 ∧ 0 ≤ e.fapl_id2 ∧ 0 ≤ e.ret_get7 ∧ 0 ≤ e.ret_get8 ∧ 0 ≤ e.ret_fclose3 ∧
    0 ≤ e.ret_pclose2)

instance (e : PropEnv) : Decidable e.engineOk := by
  unfold PropEnv.engineOk; infer_instance

/-- The eight flags the engine returns, in source order and as (writes, reads)
pairs per stage, are the ones the scenario asserts. -/
def PropEnv.flagsExpected (e : PropEnv) : Prop :=
  (e.is_coll1, e.is_coll2) = (false, false) ∧ (e.is_coll3, e.is_coll4) = (false, false) ∧
  (e.is_coll5, e.is_coll6) = (true, true) ∧ (e.is_coll7, e.is_coll8) = (true, true)

instance (e : PropEnv) : Decidable e.flagsExpected := by
  unfold PropEnv.flagsExpected; infer_instance

/-- The engine handles that are live at a point of a log (section 3 of the
specification: a handle is valid from the call that returns it until its
close).  `files` and `plists` are the live file handles and policy objects,
`sound` tells that no call so far used a handle that was not live. -/
structure Live where
  files : List Int
  plists : List Int
  sound : Bool
  deriving DecidableEq, Repr

/-- The effect of one call on the live handles: creating calls add the handle
they return, closing calls remove their argument, and every call that takes a
handle is checked to take a live one. -/
def Live.step (s : Live) (ev : Ev) : Live :=
  match ev.op with
  | .H5Pcreate => { s with plists := ev.ret :: s.plists }
  | .create_faccess_plist _ => { s with plists := ev.ret :: s.plists }
  | .H5Pset_fapl_mpio h _ => { s with sound := s.sound && s.plists.contains h }
  | .H5Pset_coll_metadata_write h _ => { s with sound := s.sound && s.plists.contains h }
  | .H5Pset_all_coll_metadata_ops h _ => { s with sound := s.sound && s.plists.contains h }
  | .H5Pget_coll_metadata_write h => { s with sound := s.sound && s.plists.contains h }
  | .H5Pget_all_coll_metadata_ops h => { s with sound := s.sound && s.plists.contains h }
  | .H5Fcreate h =>
    { s with files := ev.ret :: s.files, sound := s.sound && s.plists.contains h }
  | .H5Fopen h =>
    { s with files := ev.ret :: s.files, sound := s.sound && s.plists.contains h }
  | .H5Fget_access_plist f =>
    { s with plists := ev.ret :: s.plists, sound := s.sound && s.files.contains f }
  | .H5Fclose f => { s with files := s.files.erase f, sound := s.sound && s.files.contains f }
  | .H5Pclose h => { s with plists := s.plists.erase h, sound := s.sound && s.plists.contains h }
  | _ => s

/-- The live handles after each call of a log, in order. -/
def liveStates : Live → List Ev → List Live
  | _, [] => []
  | s, ev :: rest => s.step ev :: liveStates (s.step ev) rest

/-- The live handles after all calls of a log, starting with none. -/
def liveAfter (calls : List Ev) : Live := calls.foldl Live.step ⟨[], [], true⟩

/-- An environment of `test_file_properties` in which every engine call succeeds
and the eight flags are as given. -/
def propEnvOf (w1 r1 w2 r2 w3 r3 w4 r4 : Bool) : PropEnv :=
  { mpi_size := 4, mpi_rank := 0, fapl_id := 10, ret_set1 := 0, fid1 := 20, ret_get1 := 0,
    is_coll1 := w1, ret_get2 := 0, is_coll2 := r1, ret_fclose1 := 0, ret_set2 := 0, fid2 := 21,
    ret_get3 := 0, is_coll3 := w2, ret_get4 := 0, is_coll4 := r2, ret_fclose2 := 0,
    ret_set3 := 0, ret_setw := 0, ret_setr := 0, fid3 := 22, ret_get5 := 0, is_coll5 := w3,
    ret_get6 := 0, is_coll6 := r3, ret_pclose1 := 0, fapl_id2 := 11, ret_get7 := 0,
    is_coll7 := w4, ret_get8 := 0, is_coll8 := r4, ret_fclose3 := 0, ret_pclose2 := 0 }

/-! ## Collective calls and the groups they synchronise -/

/-- The kinds of collective call (section 5 of the specification: group split
and free, barrier, file create, open and close). -/
inductive Coll where
  | split
  | barrier
  | free
  | fcreate
  | fopen
  | fclose
  deriving DecidableEq, Repr

/-- The communicator each live policy object and file handle of a process is
bound to, latest binding first. -/
structure Bind where
  plist : List (Int × Comm)
  file : List (Int × Comm)
  deriving DecidableEq, Repr

/-- Modelled from the spec: the helper `create_faccess_plist` of the test suite,
which is not among the sources, builds a policy object bound to the
communicator it is given (section 4.4: a policy bound to the child group).
The other cases are the binding of handles to groups by the engine (section
3): `H5Pset_fapl_mpio` binds a policy object to its communicator argument, a
file handle is bound to the group of the policy object it is created or opened
with, and a policy object derived from a file handle to the group of that
handle. -/
def Bind.step (b : Bind) (ev : Ev) : Bind :=
  match ev.op with
  | .create_faccess_plist c => { b with plist := (ev.ret, c) :: b.plist }
  | .H5Pset_fapl_mpio h c => { b with plist := (h, c) :: b.plist }
  | .H5Fcreate h =>
    match b.plist.lookup h with
    | some c => { b with file := (ev.ret, c) :: b.file }
    | none => b
  | .H5Fopen h =>
    match b.plist.lookup h with
    | some c => { b with file := (ev.ret, c) :: b.file }
    | none => b
  | .H5Fget_access_plist f =>
    match b.file.lookup f with
    | some c => { b with plist := (ev.ret, c) :: b.plist }
    | none => b
  | _ => b

/-- Which calls are collective, and over which group (section 5 of the
specification): split, barrier and free over their communicator argument, file
create and open over the group of the policy object passed, file close over
the group the file handle is bound to.  Every other call is local. -/
def collOf (b : Bind) : Op → Option (Comm × Coll)
  | .MPI_Comm_split c _ _ => some (c, .split)
  | .MPI_Barrier c => some (c, .barrier)
  | .MPI_Comm_free c => some (c, .free)
  | .H5Fcreate h => (b.plist.lookup h).map fun c => (c, .fcreate)
  | .H5Fopen h => (b.plist.lookup h).map fun c => (c, .fopen)
  | .H5Fclose f => (b.file.lookup f).map fun c => (c, .fclose)
  | _ => none

/-- The synchronisation skeleton of a log, call by call: `none` for a local call,
the group and kind for a collective one. -/
def skeletonFrom : Bind → List Ev → List (Option (Comm × Coll))
  | _, [] => []
  | b, ev :: rest => collOf b ev.op :: skeletonFrom (b.step ev) rest

/-- The synchronisation skeleton of a log that starts with no handle bound. -/
def skeleton (calls : List Ev) : List (Option (Comm × Coll)) :=
  skeletonFrom ⟨[], []⟩ calls

/-- The collective calls a log issues on group `g`, in order. -/
def collectivesOn (g : Comm) (calls : List Ev) : List Coll :=
  (skeleton calls).filterMap fun o =>
    match o with
    | some (c, k) => if c = g then some k else none
    | none => none

/-! ## The system of processes

The processes of a run each go through their own calls; a collective call
completes for all members of its group at once. -/

/-- One entry of a synchronisation skeleton: `none` for a local call, the group
and kind for a collective one. -/
abbrev Sync := Option (Comm × Coll)

/-- Whether an entry is a collective call on group `g`. -/
def Sync.on (g : Comm) : Sync → Bool
  | some (c, _) => c == g
  | none => false

/-- The number of collective calls on group `g` in a list of entries. -/
def pending (g : Comm) (l : List Sync) : Nat := l.countP (Sync.on g)

/-- Group membership, as the runtime defines it (sections 4.1 and 5 of the
specification).  Every process is a member of the world group; the members of
the child group of process `p` are `p` and the processes that passed the same
key to the split.  `color q` is the key process `q` passes. -/
def inGroup (color : Nat → Option Int) (g : Comm) (p q : Nat) : Bool :=
  match g with
  | .world => true
  | .child => q == p || ((color p).isSome && color p == color q)

/-- What remains of the calls of process `q` in a state of the system (the list of
what remains for each world rank). -/
def procAt (st : List (List Sync)) (q : Nat) : List Sync := st.getD q []

/-- When the call process `p` is at can complete, for a runtime and an engine
whose collective calls complete once all members of the group argument are at
the matching call (section 5 of the specification): a local call at once; a
collective call once every member of its group has the same collective on
that group as its next call. -/
def enabled (color : Nat → Option Int) (st : List (List Sync)) (p : Nat) : Bool :=
  match procAt st p with
  | [] => false
  | none :: _ => true
  | some (g, k) :: _ =>
    (List.range st.length).all fun q =>
      !inGroup color g p q || (procAt st q).head? == some (some (g, k))

/-- Whether the completion of the call of process `p` lets process `q` go on: `p`
itself for a local call, every member of the group for a collective one. -/
def fires (color : Nat → Option Int) (st : List (List Sync)) (p q : Nat) : Bool :=
  match procAt st p with
  | [] => false
  | none :: _ => q == p
  | some (g, _) :: _ => inGroup color g p q

/-- The state after the call process `p` is at completes: every process that call
lets go on has that call behind it. -/
def fire (color : Nat → Option Int) (st : List (List Sync)) (p : Nat) : List (List Sync) :=
  (List.range st.length).map fun q =>
    if fires color st p q then (procAt st q).tail else procAt st q

/-- The states the system can get to from `init` by completing enabled calls, in
any order. -/
inductive Reach (color : Nat → Option Int) (init : List (List Sync)) :
    List (List Sync) → Prop where
  | start : Reach color init init
  | step {st : List (List Sync)} (p : Nat) : Reach color init st → p < st.length →
      enabled color st p = true → Reach color init (fire color st p)

/-- The number of calls that have not completed yet, over all processes. -/
def remaining (st : List (List Sync)) : Nat :=
  ((List.range st.length).map fun p => (procAt st p).length).sum

/-- Every process has completed all its calls, that is, has returned from the
scenario. -/
def allReturned (st : List (List Sync)) : Bool :=
  (List.range st.length).all fun p => (procAt st p).isEmpty

/-- A scheduler: completes the enabled call of the lowest rank, at most `fuel`
times, and stops when no call is enabled. -/
def sched (color : Nat → Option Int) : Nat → List (List Sync) → List (List Sync)
  | 0, st => st
  | fuel + 1, st =>
    match (List.range st.length).find? (enabled color st) with
    | some p => sched color fuel (fire color st p)
    | none => st

/-- The system of `n` processes that each run `test_split_comm_access`: process
`p` has the synchronisation skeleton of its log. -/
def splitSystem (abortsOn : Fault → Bool) (n : Nat) (envs : Nat → SplitEnv) : List (List Sync) :=
  (List.range n).map fun p => skeleton (runSplit abortsOn (envs p)).log.calls

/-- The key each process passes to `MPI_Comm_split`, read off its log. -/
def splitColors (abortsOn : Fault → Bool) (envs : Nat → SplitEnv) : Nat → Option Int :=
  fun p => splitColor (runSplit abortsOn (envs p)).ops

/-- The synchronisation skeleton of `test_split_comm_access` at an odd rank
(`skeleton_of_rank`). -/
def oddSkeleton : List Sync :=
  [none, none, some (.world, .split), none, none, some (.child, .barrier),
   some (.child, .free), some (.world, .barrier)]

/-- The synchronisation skeleton of `test_split_comm_access` at an even rank, with
or without the file delete (`skeleton_of_rank`). -/
def evenSkeleton (del : Bool) : List Sync :=
  [none, none, some (.world, .split), none, none, none, none, some (.child, .fcreate), none,
   some (.child, .fclose)] ++ (if del then [none] else []) ++
  [some (.child, .free), some (.world, .barrier)]

/-- The skeletons a process of world rank `r` can have. -/
def skeletonsOf (r : Nat) : List (List Sync) :=
  if r % 2 = 1 then [oddSkeleton] else [evenSkeleton false, evenSkeleton true]

/-- Whether the next call is a collective on group `g`. -/
def headOn (g : Comm) : List Sync → Bool
  | some (c, _) :: _ => c == g
  | _ => false

/-- A check on two lists of remaining calls, `s` at a collective on the child
group: if `t` has as many collectives pending on either group, then `t` is at a
local call or at the same call as `s`. -/
def agreeChild (s t : List Sync) : Bool :=
  !headOn .child s || !(pending .child t == pending .child s) ||
    !(pending .world t == pending .world s) || t.head? == some none || t.head? == s.head?

/-- A check on two lists of remaining calls, `s` at a collective on the world
group: if `t` has as many collectives pending on the world group, then `t` is
at a local call, at a collective on the child group, or at the same call as
`s`. -/
def agreeWorld (s t : List Sync) : Bool :=
  !headOn .world s || !(pending .world t == pending .world s) || t.head? == some none ||
    headOn .child t || t.head? == s.head?

/-- The invariant of the system: what remains of each process is a suffix of its
skeleton, all processes have the same number of collectives pending on the
world group, and processes of the same parity the same number pending on the
child group. -/
def Inv (n : Nat) (init st : List (List Sync)) : Prop :=
  st.length = n ∧
  (∀ p, p < n → procAt st p ∈ (procAt init p).tails) ∧
  (∀ p q, p < n → q < n → pending .world (procAt st p) = pending .world (procAt st q)) ∧
  (∀ p q, p < n → q < n → p % 2 = q % 2 →
    pending .child (procAt st p) = pending .child (procAt st q))

/-- The system is one of `n` processes whose rank `p` has a skeleton of
`skeletonsOf p` and passes the key `p mod 2`. -/
def ParitySplit (n : Nat) (color : Nat → Option Int) (init : List (List Sync)) : Prop :=
  init.length = n ∧ (∀ p, p < n → procAt init p ∈ skeletonsOf p) ∧
  ∀ p, p < n → color p = some ((p % 2 : Nat) : Int)

/-! ## Theorems -/

/-! ### The monad and `exec` -/

theorem M.bind_pure_unit (m : M Unit) : M.bind m (fun _ => M.pure ()) = m := by
  funext l
  simp only [M.bind, M.pure]
  cases m l <;> rfl

theorem M.pure_bind {α β : Type} (a : α) (f : α → M β) : M.bind (M.pure a) f = f a := rfl

theorem call_bind_fun {β : Type} (o : Op) (r : Int) (f : Int → M β) :
    M.bind (call o r) f = fun l => f r { l with calls := l.calls ++ [⟨o, r⟩] } := rfl

theorem callOut_bind_fun {β : Type} (o : Op) (r : Int) (out : Bool) (f : Int × Bool → M β) :
    M.bind (callOut o r out) f = fun l => f (r, out) { l with calls := l.calls ++ [⟨o, r⟩] } :=
  rfl

theorem exec_call (ab : Fault → Bool) (o : Op) (r : Int) (rest : List Stmt) (l : Log) :
    exec ab (.call o r :: rest) l = exec ab rest ⟨l.calls ++ [⟨o, r⟩], l.failures⟩ := rfl

theorem exec_vrfy_true (ab : Fault → Bool) (k : Fault) (mesg : String) (rest : List Stmt)
    (l : Log) : exec ab (.vrfy k true mesg :: rest) l = exec ab rest l := rfl

theorem exec_vrfy_false_abort (ab : Fault → Bool) (k : Fault) (mesg : String) (rest : List Stmt)
    (l : Log) (h : ab k = true) :
    exec ab (.vrfy k false mesg :: rest) l = .aborted ⟨l.calls, l.failures ++ [mesg]⟩ := by
  simp [exec, M.bind, VRFY, h]

theorem exec_vrfy_false_go (ab : Fault → Bool) (k : Fault) (mesg : String) (rest : List Stmt)
    (l : Log) (h : ab k = false) :
    exec ab (.vrfy k false mesg :: rest) l = exec ab rest ⟨l.calls, l.failures ++ [mesg]⟩ := by
  simp [exec, M.bind, VRFY, h]

/-- When no statement ends the process the list runs to its end: all its calls
are logged and all its failed assertions recorded. -/
theorem exec_no_stop (ab : Fault → Bool) (ss : List Stmt) :
    ∀ l : Log, (∀ s ∈ ss, s.stops ab = false) →
      exec ab ss l = .done () ⟨l.calls ++ callsOf ss, l.failures ++ failuresOf ss⟩ := by
  induction ss with
  | nil => intro l _; simp [exec, M.pure, callsOf, failuresOf]
  | cons s rest ih =>
    intro l h
    have hrest : ∀ t ∈ rest, t.stops ab = false := fun t ht => h t (List.mem_cons_of_mem _ ht)
    have hs := h s (List.mem_cons_self _ _)
    cases s with
    | call o r => rw [exec_call, ih _ hrest]; simp [callsOf, failuresOf]
    | vrfy k val mesg =>
      cases val with
      | true => rw [exec_vrfy_true, ih _ hrest]; simp [callsOf, failuresOf]
      | false =>
        have hk : ab k = false := by simpa [Stmt.stops] using hs
        rw [exec_vrfy_false_go _ _ _ _ _ hk, ih _ hrest]; simp [callsOf, failuresOf]

/-- A run records no failure exactly when it started with none and every
assertion on its way holds, whatever `VRFY` does after a failure. -/
theorem exec_failures_nil_iff (ab : Fault → Bool) (ss : List Stmt) :
    ∀ l : Log, (exec ab ss l).log.failures = [] ↔ (l.failures = [] ∧ ∀ s ∈ ss, s.holds = true) := by
  induction ss with
  | nil => intro l; simp [exec, M.pure, Res.log]
  | cons s rest ih =>
    intro l
    cases s with
    | call o r => rw [exec_call, ih]; simp [Stmt.holds]
    | vrfy k val mesg =>
      cases val with
      | true => rw [exec_vrfy_true, ih]; simp [Stmt.holds]
      | false =>
        cases hk : ab k with
        | true => rw [exec_vrfy_false_abort _ _ _ _ _ hk]; simp [Res.log, Stmt.holds]
        | false => rw [exec_vrfy_false_go _ _ _ _ _ hk, ih]; simp [Stmt.holds]

/-- Changing return values in the log only, not the conditions asserted, changes
nothing else of a run. -/
theorem exec_relabel (ab : Fault → Bool) (g : Ev → Ev) (ss : List Stmt) :
    ∀ l : Log, exec ab (ss.map (Stmt.relabel g)) (l.relabel g) = (exec ab ss l).relabel g := by
  induction ss with
  | nil => intro l; simp [exec, M.pure, Res.relabel]
  | cons s rest ih =>
    intro l
    cases s with
    | call o r =>
      simp only [List.map_cons, Stmt.relabel, exec_call]
      rw [← ih]
      simp [Log.relabel]
    | vrfy k val mesg =>
      cases val with
      | true => simp only [List.map_cons, Stmt.relabel, exec_vrfy_true]; exact ih l
      | false =>
        cases hk : ab k with
        | true =>
          simp only [List.map_cons, Stmt.relabel]
          rw [exec_vrfy_false_abort _ _ _ _ _ hk, exec_vrfy_false_abort _ _ _ _ _ hk]
          simp [Res.relabel, Log.relabel]
        | false =>
          simp only [List.map_cons, Stmt.relabel]
          rw [exec_vrfy_false_go _ _ _ _ _ hk, exec_vrfy_false_go _ _ _ _ _ hk, ← ih]
          simp [Log.relabel]

/-! ### `test_split_comm_access` -/

theorem test_split_comm_access_eq (ab : Fault → Bool) (e : SplitEnv) :
    test_split_comm_access ab e = exec ab (splitStmts e) := by
  by_cases h1 : Int.tmod e.mpi_rank 2 = 0 <;> by_cases h2 : e.sub_mpi_rank = 0 <;>
    simp [test_split_comm_access, splitStmts, exec, bind, pure, h1, h2, call_bind_fun,
      M.bind_pure_unit, M.pure_bind]

theorem tmod_two_cast (r : Nat) : Int.tmod (r : Int) 2 = ((r % 2 : Nat) : Int) := rfl

theorem runSplit_odd (ab : Fault → Bool) (e : SplitEnv) (hok : e.ok)
    (hodd : Int.tmod e.mpi_rank 2 ≠ 0) :
    runSplit ab e = .done () ⟨[
      ⟨.MPI_Comm_size .world, e.mpi_size⟩, ⟨.MPI_Comm_rank .world, e.mpi_rank⟩,
      ⟨.MPI_Comm_split .world (Int.tmod e.mpi_rank 2) e.mpi_rank, e.mrc_split⟩,
      ⟨.MPI_Comm_size .child, e.newprocs⟩, ⟨.MPI_Comm_rank .child, e.newrank⟩,
      ⟨.MPI_Barrier .child, e.mrc_barrier⟩,
      ⟨.MPI_Comm_free .child, e.mrc_free⟩, ⟨.MPI_Barrier .world, e.mrc_final⟩], []⟩ := by
  obtain ⟨h1, h2, _, _, _, _, h7, h8⟩ := hok
  simp [runSplit, test_split_comm_access, bind, M.bind, pure, M.pure, call, VRFY, h1, h2, h7, h8,
    hodd, Log.empty]

theorem runSplit_even (ab : Fault → Bool) (e : SplitEnv) (hok : e.ok)
    (hev : Int.tmod e.mpi_rank 2 = 0) :
    runSplit ab e = .done () ⟨[
      ⟨.MPI_Comm_size .world, e.mpi_size⟩, ⟨.MPI_Comm_rank .world, e.mpi_rank⟩,
      ⟨.MPI_Comm_split .world (Int.tmod e.mpi_rank 2) e.mpi_rank, e.mrc_split⟩,
      ⟨.MPI_Comm_size .child, e.newprocs⟩, ⟨.MPI_Comm_rank .child, e.newrank⟩,
      ⟨.MPI_Comm_rank .child, e.sub_mpi_rank⟩,
      ⟨.create_faccess_plist .child, e.acc_tpl⟩, ⟨.H5Fcreate e.acc_tpl, e.fid⟩,
      ⟨.H5Pclose e.acc_tpl, e.ret_pclose⟩, ⟨.H5Fclose e.fid, e.ret_fclose⟩]
      ++ (if e.sub_mpi_rank = 0 then [⟨.MPI_File_delete, e.mrc_delete⟩] else [])
      ++ [⟨.MPI_Comm_free .child, e.mrc_free⟩, ⟨.MPI_Barrier .world, e.mrc_final⟩], []⟩ := by
  obtain ⟨h1, h2, h3, h4, h5, h6, h7, h8⟩ := hok
  by_cases hs : e.sub_mpi_rank = 0 <;>
  simp [runSplit, test_split_comm_access, bind, M.bind, pure, M.pure, call, VRFY, h1, h2, h3, h4,
    h5, h6, h7, h8, hev, hs, Log.empty]

theorem splitStmts_fixDelete (e : SplitEnv) :
    (splitStmts e).map (Stmt.relabel fixDelete) = splitStmts { e with mrc_delete := MPI_SUCCESS } := by
  by_cases h1 : Int.tmod e.mpi_rank 2 = 0 <;> by_cases h2 : e.sub_mpi_rank = 0 <;>
    simp [splitStmts, Stmt.relabel, fixDelete, h1, h2]

theorem runSplit_fixDelete (ab : Fault → Bool) (e : SplitEnv) :
    runSplit ab { e with mrc_delete := MPI_SUCCESS } = (runSplit ab e).relabel fixDelete := by
  unfold runSplit
  rw [test_split_comm_access_eq, test_split_comm_access_eq, ← splitStmts_fixDelete,
    ← exec_relabel]
  rfl

/-- The parity of a rank, as the C remainder sees it. -/
theorem tmod_rank_cases (e : SplitEnv) (r : Nat) (hrank : e.mpi_rank = r) :
    (r % 2 = 0 ∧ Int.tmod e.mpi_rank 2 = 0) ∨ (r % 2 = 1 ∧ Int.tmod e.mpi_rank 2 = 1) := by
  rw [hrank, tmod_two_cast]
  rcases Nat.mod_two_eq_zero_or_one r with h | h
  · left; simp [h]
  · right; simp [h]

/-- The calls of a process on the failure-free path, by parity of its rank. -/
theorem ops_of_rank (ab : Fault → Bool) (e : SplitEnv) (r : Nat) (hrank : e.mpi_rank = r)
    (hok : e.ok) :
    (r % 2 = 1 ∧ (runSplit ab e).ops =
      [.MPI_Comm_size .world, .MPI_Comm_rank .world, .MPI_Comm_split .world 1 r,
       .MPI_Comm_size .child, .MPI_Comm_rank .child, .MPI_Barrier .child,
       .MPI_Comm_free .child, .MPI_Barrier .world]) ∨
    (r % 2 = 0 ∧ e.sub_mpi_rank ≠ 0 ∧ (runSplit ab e).ops =
      [.MPI_Comm_size .world, .MPI_Comm_rank .world, .MPI_Comm_split .world 0 r,
       .MPI_Comm_size .child, .MPI_Comm_rank .child, .MPI_Comm_rank .child,
       .create_faccess_plist .child, .H5Fcreate e.acc_tpl, .H5Pclose e.acc_tpl, .H5Fclose e.fid,
       .MPI_Comm_free .child, .MPI_Barrier .world]) ∨
    (r % 2 = 0 ∧ e.sub_mpi_rank = 0 ∧ (runSplit ab e).ops =
      [.MPI_Comm_size .world, .MPI_Comm_rank .world, .MPI_Comm_split .world 0 r,
       .MPI_Comm_size .child, .MPI_Comm_rank .child, .MPI_Comm_rank .child,
       .create_faccess_plist .child, .H5Fcreate e.acc_tpl, .H5Pclose e.acc_tpl, .H5Fclose e.fid,
       .MPI_File_delete, .MPI_Comm_free .child, .MPI_Barrier .world]) := by
  rcases tmod_rank_cases e r hrank with ⟨hr, ht⟩ | ⟨hr, ht⟩
  · right
    by_cases hs : e.sub_mpi_rank = 0
    · right
      refine ⟨hr, hs, ?_⟩
      rw [runSplit_even ab e hok ht]
      simp [Res.ops, Res.log, hs, hrank ▸ ht, hrank]
    · left
      refine ⟨hr, hs, ?_⟩
      rw [runSplit_even ab e hok ht]
      simp [Res.ops, Res.log, hs, hrank ▸ ht, hrank]
  · left
    refine ⟨hr, ?_⟩
    rw [runSplit_odd ab e hok (by rw [ht]; decide)]
    simp [Res.ops, Res.log, hrank ▸ ht, hrank]

/-- Every call a run logs is one the log started with or one of the statements. -/
theorem exec_calls_sub (ab : Fault → Bool) (ss : List Stmt) :
    ∀ l : Log, ∀ ev ∈ (exec ab ss l).log.calls, ev ∈ l.calls ∨ ev ∈ callsOf ss := by
  induction ss with
  | nil => intro l ev h; left; simpa [exec, M.pure, Res.log] using h
  | cons s rest ih =>
    intro l ev h
    cases s with
    | call o r =>
      rw [exec_call] at h
      rcases ih _ ev h with h1 | h1
      · simp only [List.mem_append, List.mem_singleton] at h1
        rcases h1 with h1 | h1
        · exact Or.inl h1
        · right; simp [callsOf, h1]
      · right; simp [callsOf, h1]
    | vrfy k val mesg =>
      cases val with
      | true => rw [exec_vrfy_true] at h; simpa [callsOf] using ih _ ev h
      | false =>
        cases hk : ab k with
        | true => rw [exec_vrfy_false_abort _ _ _ _ _ hk] at h; left; simpa [Res.log] using h
        | false => rw [exec_vrfy_false_go _ _ _ _ _ hk] at h; simpa [callsOf] using ih _ ev h

theorem fileExistsAfter_of_no_file_op (l : List Op) :
    l.any Op.onFile = false → ∀ s, fileExistsAfter l s = s := by
  induction l with
  | nil => intro _ s; rfl
  | cons o rest ih =>
    intro h s
    simp only [List.any_cons, Bool.or_eq_false_iff] at h
    obtain ⟨ho, hrest⟩ := h
    cases o <;> simp [Op.onFile] at ho <;> simpa [fileExistsAfter] using ih hrest s

theorem fixDelete_op (ev : Ev) : (fixDelete ev).op = ev.op := by
  unfold fixDelete; split <;> rfl

/-- The synchronisation skeleton of a process on the failure-free path. -/
theorem skeleton_of_rank (ab : Fault → Bool) (e : SplitEnv) (r : Nat) (hrank : e.mpi_rank = r)
    (hok : e.ok) :
    (r % 2 = 1 ∧ skeleton (runSplit ab e).log.calls =
      [none, none, some (.world, .split), none, none, some (.child, .barrier),
       some (.child, .free), some (.world, .barrier)]) ∨
    (r % 2 = 0 ∧ e.sub_mpi_rank ≠ 0 ∧ skeleton (runSplit ab e).log.calls =
      [none, none, some (.world, .split), none, none, none, none, some (.child, .fcreate), none,
       some (.child, .fclose), some (.child, .free), some (.world, .barrier)]) ∨
    (r % 2 = 0 ∧ e.sub_mpi_rank = 0 ∧ skeleton (runSplit ab e).log.calls =
      [none, none, some (.world, .split), none, none, none, none, some (.child, .fcreate), none,
       some (.child, .fclose), none, some (.child, .free), some (.world, .barrier)]) := by
  rcases tmod_rank_cases e r hrank with ⟨hr, ht⟩ | ⟨hr, ht⟩
  · right
    by_cases hs : e.sub_mpi_rank = 0
    · right
      refine ⟨hr, hs, ?_⟩
      rw [runSplit_even ab e hok ht]
      simp [Res.log, hs, skeleton, skeletonFrom, collOf, Bind.step, List.lookup]
    · left
      refine ⟨hr, hs, ?_⟩
      rw [runSplit_even ab e hok ht]
      simp [Res.log, hs, skeleton, skeletonFrom, collOf, Bind.step, List.lookup]
  · left
    refine ⟨hr, ?_⟩
    rw [runSplit_odd ab e hok (by rw [ht]; decide)]
    simp [Res.log, skeleton, skeletonFrom, collOf, Bind.step]

/-- What the log of a process on the failure-free path shows of its branch. -/
theorem branch_of_rank (ab : Fault → Bool) (e : SplitEnv) (r : Nat) (hrank : e.mpi_rank = r)
    (hok : e.ok) :
    splitColor (runSplit ab e).ops = some ((r % 2 : Nat) : Int) ∧
    (actsOnFile (runSplit ab e).ops = true ↔ r % 2 = 0) ∧
    (passiveOnly (runSplit ab e).ops = true ↔ r % 2 = 1) := by
  rcases ops_of_rank ab e r hrank hok with ⟨h, ho⟩ | ⟨h, _, ho⟩ | ⟨h, _, ho⟩ <;>
    simp [ho, h, splitColor, actsOnFile, passiveOnly, Op.isFileCreate, Op.isFileClose,
      Op.onFile]

/-- A run only adds calls to the log it starts with. -/
theorem exec_calls_prefix (ab : Fault → Bool) (ss : List Stmt) :
    ∀ l : Log, l.calls <+: (exec ab ss l).log.calls := by
  induction ss with
  | nil => intro l; exact List.prefix_refl _
  | cons s rest ih =>
    intro l
    cases s with
    | call o r =>
      rw [exec_call]
      exact (List.prefix_append l.calls [⟨o, r⟩]).trans (ih ⟨l.calls ++ [⟨o, r⟩], l.failures⟩)
    | vrfy k val mesg =>
      cases val with
      | true => rw [exec_vrfy_true]; exact ih l
      | false =>
        cases hk : ab k with
        | true => rw [exec_vrfy_false_abort _ _ _ _ _ hk]; exact List.prefix_refl _
        | false =>
          rw [exec_vrfy_false_go _ _ _ _ _ hk]
          exact ih ⟨l.calls, l.failures ++ [mesg]⟩

/-- On every path the first three calls are the size and rank inquiries on the
world group and the split with the parity of the rank as key. -/
theorem runSplit_starts (ab : Fault → Bool) (e : SplitEnv) :
    ∃ more, (runSplit ab e).ops =
      [.MPI_Comm_size .world, .MPI_Comm_rank .world,
       .MPI_Comm_split .world (Int.tmod e.mpi_rank 2) e.mpi_rank] ++ more := by
  have h3 : splitStmts e =
      .call (.MPI_Comm_size .world) e.mpi_size :: .call (.MPI_Comm_rank .world) e.mpi_rank ::
      .call (.MPI_Comm_split .world (Int.tmod e.mpi_rank 2) e.mpi_rank) e.mrc_split ::
      (splitStmts e).drop 3 := rfl
  have hp := exec_calls_prefix ab ((splitStmts e).drop 3)
    ⟨[⟨.MPI_Comm_size .world, e.mpi_size⟩, ⟨.MPI_Comm_rank .world, e.mpi_rank⟩,
      ⟨.MPI_Comm_split .world (Int.tmod e.mpi_rank 2) e.mpi_rank, e.mrc_split⟩], []⟩
  obtain ⟨more, hmore⟩ := hp
  refine ⟨more.map Ev.op, ?_⟩
  have hrun : runSplit ab e = exec ab ((splitStmts e).drop 3)
      ⟨[⟨.MPI_Comm_size .world, e.mpi_size⟩, ⟨.MPI_Comm_rank .world, e.mpi_rank⟩,
        ⟨.MPI_Comm_split .world (Int.tmod e.mpi_rank 2) e.mpi_rank, e.mrc_split⟩], []⟩ := by
    unfold runSplit
    rw [test_split_comm_access_eq]
    conv_lhs => rw [h3]
    rfl
  rw [Res.ops, hrun, ← hmore]
  simp

/-- The key a process passes to the split is the parity of its rank, on every
path. -/
theorem splitColor_of_rank (ab : Fault → Bool) (e : SplitEnv) (r : Nat)
    (hrank : e.mpi_rank = r) :
    splitColor (runSplit ab e).ops = some ((r % 2 : Nat) : Int) := by
  obtain ⟨more, h⟩ := runSplit_starts ab e
  rw [h, hrank, tmod_two_cast]
  rfl

/-- Two processes are in the same child group exactly when their ranks have the
same parity, on every path. -/
theorem sameChildGroup_iff (ab : Fault → Bool) (e1 e2 : SplitEnv) (r1 r2 : Nat)
    (h1 : e1.mpi_rank = r1) (h2 : e2.mpi_rank = r2) :
    sameChildGroup (runSplit ab e1).ops (runSplit ab e2).ops = true ↔ r1 % 2 = r2 % 2 := by
  rw [sameChildGroup, splitColor_of_rank ab e1 r1 h1, splitColor_of_rank ab e2 r2 h2]
  simp
  omega

/-! ### `test_file_properties` -/

theorem test_file_properties_eq (ab : Fault → Bool) (e : PropEnv) :
    test_file_properties ab e = exec ab (propStmts e) := by
  simp [test_file_properties, propStmts, exec, bind, call_bind_fun, callOut_bind_fun,
    M.bind_pure_unit]

/-- When no assertion ends the process, `test_file_properties` issues all its
calls. -/
theorem runProps_no_stop (ab : Fault → Bool) (e : PropEnv) (hok : e.engineOk)
    (hgo : ab .mismatch = false ∨ e.flagsExpected) :
    runProps ab e = .done () ⟨callsOf (propStmts e), failuresOf (propStmts e)⟩ := by
  obtain ⟨⟨a1, a2, a3, a4, a5, a6⟩, ⟨b1, b2, b3, b4, b5⟩, ⟨c1, c2, c3, c4, c5, c6⟩,
    ⟨d1, d2, d3, d4, d5, d6⟩⟩ := hok
  rw [runProps, test_file_properties_eq, exec_no_stop]
  · simp [Log.empty]
  · rcases hgo with hgo | hgo
    · simp [propStmts, Stmt.stops, hgo, a1, a2, a3, a4, a5, a6, b1, b2,
        b3, b4, b5, c1, c2, c3, c4, c5, c6, d1, d2, d3, d4, d5, d6]
    · simp only [PropEnv.flagsExpected, Prod.mk.injEq] at hgo
      obtain ⟨⟨f1, f2⟩, ⟨f3, f4⟩, ⟨f5, f6⟩, ⟨f7, f8⟩⟩ := hgo
      simp [propStmts, Stmt.stops, f1, f2, f3, f4, f5, f6, f7, f8, a1, a2, a3, a4, a5, a6, b1, b2,
        b3, b4, b5, c1, c2, c3, c4, c5, c6, d1, d2, d3, d4, d5, d6]

theorem callsOf_propStmts (e : PropEnv) :
    callsOf (propStmts e) =
      [⟨.MPI_Comm_size .world, e.mpi_size⟩, ⟨.MPI_Comm_rank .world, e.mpi_rank⟩,
       ⟨.H5Pcreate, e.fapl_id⟩, ⟨.H5Pset_fapl_mpio e.fapl_id .world, e.ret_set1⟩,
       ⟨.H5Fcreate e.fapl_id, e.fid1⟩,
       ⟨.H5Pget_coll_metadata_write e.fapl_id, e.ret_get1⟩,
       ⟨.H5Pget_all_coll_metadata_ops e.fapl_id, e.ret_get2⟩,
       ⟨.H5Fclose e.fid1, e.ret_fclose1⟩,
       ⟨.H5Pset_fapl_mpio e.fapl_id .world, e.ret_set2⟩,
       ⟨.H5Fopen e.fapl_id, e.fid2⟩,
       ⟨.H5Pget_coll_metadata_write e.fapl_id, e.ret_get3⟩,
       ⟨.H5Pget_all_coll_metadata_ops e.fapl_id, e.ret_get4⟩,
       ⟨.H5Fclose e.fid2, e.ret_fclose2⟩,
       ⟨.H5Pset_fapl_mpio e.fapl_id .world, e.ret_set3⟩,
       ⟨.H5Pset_coll_metadata_write e.fapl_id true, e.ret_setw⟩,
       ⟨.H5Pset_all_coll_metadata_ops e.fapl_id true, e.ret_setr⟩,
       ⟨.H5Fopen e.fapl_id, e.fid3⟩,
       ⟨.H5Pget_coll_metadata_write e.fapl_id, e.ret_get5⟩,
       ⟨.H5Pget_all_coll_metadata_ops e.fapl_id, e.ret_get6⟩,
       ⟨.H5Pclose e.fapl_id, e.ret_pclose1⟩,
       ⟨.H5Fget_access_plist e.fid3, e.fapl_id2⟩,
       ⟨.H5Pget_coll_metadata_write e.fapl_id2, e.ret_get7⟩,
       ⟨.H5Pget_all_coll_metadata_ops e.fapl_id2, e.ret_get8⟩,
       ⟨.H5Fclose e.fid3, e.ret_fclose3⟩,
       ⟨.H5Pclose e.fapl_id2, e.ret_pclose2⟩] := rfl

/-! ### The system of processes never blocks -/

theorem agreeChild_skeletons :
    ([0, 1] : List Nat).all (fun c => (skeletonsOf c).all fun X => (skeletonsOf c).all fun Y =>
      X.tails.all fun s => Y.tails.all fun t => agreeChild s t) = true := by decide

theorem agreeWorld_skeletons :
    ([0, 1] : List Nat).all (fun c => ([0, 1] : List Nat).all fun d =>
      (skeletonsOf c).all fun X => (skeletonsOf d).all fun Y =>
      X.tails.all fun s => Y.tails.all fun t => agreeWorld s t) = true := by decide


theorem skeletonsOf_mod (r : Nat) : skeletonsOf (r % 2) = skeletonsOf r := by
  unfold skeletonsOf; rw [Nat.mod_mod]

theorem agreeChild_of (p q : Nat) (hpq : p % 2 = q % 2) (X Y s t : List Sync)
    (hX : X ∈ skeletonsOf p) (hY : Y ∈ skeletonsOf q) (hs : s ∈ X.tails) (ht : t ∈ Y.tails) :
    agreeChild s t = true := by
  have h := agreeChild_skeletons
  simp only [List.all_eq_true] at h
  have hp : p % 2 ∈ ([0, 1] : List Nat) := by
    rcases Nat.mod_two_eq_zero_or_one p with h0 | h0 <;> simp [h0]
  exact h (p % 2) hp X (by rw [skeletonsOf_mod]; exact hX) Y
    (by rw [hpq, skeletonsOf_mod]; exact hY) s hs t ht

theorem agreeWorld_of (p q : Nat) (X Y s t : List Sync)
    (hX : X ∈ skeletonsOf p) (hY : Y ∈ skeletonsOf q) (hs : s ∈ X.tails) (ht : t ∈ Y.tails) :
    agreeWorld s t = true := by
  have h := agreeWorld_skeletons
  simp only [List.all_eq_true] at h
  have hp : p % 2 ∈ ([0, 1] : List Nat) := by
    rcases Nat.mod_two_eq_zero_or_one p with h0 | h0 <;> simp [h0]
  have hq : q % 2 ∈ ([0, 1] : List Nat) := by
    rcases Nat.mod_two_eq_zero_or_one q with h0 | h0 <;> simp [h0]
  exact h (p % 2) hp (q % 2) hq X (by rw [skeletonsOf_mod]; exact hX) Y
    (by rw [skeletonsOf_mod]; exact hY) s hs t ht

theorem procAt_map_range (n : Nat) (f : Nat → List Sync) (q : Nat) (hq : q < n) :
    procAt ((List.range n).map f) q = f q := by
  simp [procAt, List.getElem?_range hq]

theorem length_fire (color : Nat → Option Int) (st : List (List Sync)) (p : Nat) :
    (fire color st p).length = st.length := by
  simp [fire]

theorem procAt_fire (color : Nat → Option Int) (st : List (List Sync)) (p q : Nat)
    (hq : q < st.length) :
    procAt (fire color st p) q =
      if fires color st p q then (procAt st q).tail else procAt st q := by
  unfold fire
  rw [procAt_map_range _ _ _ hq]

/-- A process that is enabled has a call left, it advances itself, and every
process it advances is at the same call. -/
theorem fires_head (color : Nat → Option Int) (st : List (List Sync)) (p : Nat)
    (hen : enabled color st p = true) :
    ∃ x rest, procAt st p = x :: rest ∧
      ∀ q, q < st.length → fires color st p q = true → (procAt st q).head? = some x := by
  unfold enabled at hen
  cases h : procAt st p with
  | nil => rw [h] at hen; exact absurd hen (by simp)
  | cons x rest =>
    refine ⟨x, rest, rfl, ?_⟩
    intro q hq hf
    unfold fires at hf
    rw [h] at hf hen
    cases x with
    | none =>
      have : q = p := by simpa using hf
      rw [this, h]; rfl
    | some gk =>
      obtain ⟨g, k⟩ := gk
      have hf2 : inGroup color g p q = true := hf
      simp only [List.all_eq_true, List.mem_range] at hen
      have := hen q hq
      simpa [hf2] using this

theorem fires_self (color : Nat → Option Int) (st : List (List Sync)) (p : Nat)
    (hen : enabled color st p = true) : fires color st p p = true := by
  unfold enabled at hen
  unfold fires
  cases h : procAt st p with
  | nil => rw [h] at hen; exact absurd hen (by simp)
  | cons x rest =>
    rw [h] at hen
    cases x with
    | none => simp
    | some gk =>
      obtain ⟨g, k⟩ := gk
      cases g <;> simp [inGroup]

theorem pending_tail (g : Comm) (l : List Sync) (x : Sync) (h : l.head? = some x) :
    pending g l = pending g l.tail + (if x.on g then 1 else 0) := by
  cases l with
  | nil => simp at h
  | cons y t =>
    simp only [List.head?_cons, Option.some.injEq] at h
    subst h
    simp [pending, List.countP_cons]

theorem pending_skeletons :
    ([0, 1] : List Nat).all (fun c => (skeletonsOf c).all fun X =>
      pending .world X == 2 && (skeletonsOf c).all fun Y =>
        pending .child X == pending .child Y) = true := by decide

theorem pending_skeletons_of (p q : Nat) (X Y : List Sync) (hX : X ∈ skeletonsOf p)
    (hY : Y ∈ skeletonsOf q) :
    pending .world X = 2 ∧ (p % 2 = q % 2 → pending .child X = pending .child Y) := by
  have h := pending_skeletons
  simp only [List.all_eq_true, Bool.and_eq_true, beq_iff_eq] at h
  have hp : p % 2 ∈ ([0, 1] : List Nat) := by
    rcases Nat.mod_two_eq_zero_or_one p with h0 | h0 <;> simp [h0]
  have hX2 : X ∈ skeletonsOf (p % 2) := by rw [skeletonsOf_mod]; exact hX
  refine ⟨(h _ hp X hX2).1, fun hpq => (h _ hp X hX2).2 Y ?_⟩
  rw [hpq, skeletonsOf_mod]; exact hY

theorem inv_init (n : Nat) (color : Nat → Option Int) (init : List (List Sync))
    (hsys : ParitySplit n color init) : Inv n init init := by
  obtain ⟨hlen, hsk, _⟩ := hsys
  refine ⟨hlen, fun p _ => ?_, fun p q hp hq => ?_, fun p q hp hq hpq => ?_⟩
  · rw [List.mem_tails]
  · rw [(pending_skeletons_of p q _ _ (hsk p hp) (hsk q hq)).1,
      (pending_skeletons_of q p _ _ (hsk q hq) (hsk p hp)).1]
  · exact (pending_skeletons_of p q _ _ (hsk p hp) (hsk q hq)).2 hpq

theorem inGroup_child_iff (n : Nat) (color : Nat → Option Int)
    (hcol : ∀ p, p < n → color p = some ((p % 2 : Nat) : Int)) (p q : Nat) (hp : p < n)
    (hq : q < n) : inGroup color .child p q = true ↔ p % 2 = q % 2 := by
  simp only [inGroup, hcol p hp, hcol q hq, Option.isSome_some, Bool.true_and, Bool.or_eq_true,
    beq_iff_eq, Option.some.injEq, Nat.cast_inj]
  constructor
  · rintro (h | h)
    · rw [h]
    · exact h
  · exact fun h => Or.inr h

theorem pending_fire (color : Nat → Option Int) (st : List (List Sync)) (p q : Nat) (g : Comm)
    (x : Sync) (hq : q < st.length)
    (hhead : fires color st p q = true → (procAt st q).head? = some x) :
    pending g (procAt (fire color st p) q) +
      (if fires color st p q = true ∧ x.on g = true then 1 else 0) =
      pending g (procAt st q) := by
  rw [procAt_fire _ _ _ _ hq]
  by_cases hf : fires color st p q = true
  · rw [if_pos hf, pending_tail g _ x (hhead hf)]
    by_cases hx : x.on g = true <;> simp [hf, hx]
  · simp [hf]

theorem inv_step (n : Nat) (color : Nat → Option Int) (init st : List (List Sync))
    (hsys : ParitySplit n color init) (hinv : Inv n init st) (p : Nat) (hp : p < n)
    (hen : enabled color st p = true) : Inv n init (fire color st p) := by
  obtain ⟨hlen, hsuf, hw, hc⟩ := hinv
  obtain ⟨x, rest, hpx, hhead⟩ := fires_head color st p hen
  have hfw : x.on .world = true → ∀ q, fires color st p q = true := by
    intro hx q
    unfold fires
    rw [hpx]
    cases x with
    | none => simp [Sync.on] at hx
    | some gk =>
      obtain ⟨g, k⟩ := gk
      cases g with
      | world => rfl
      | child => simp [Sync.on] at hx
  have hfc : x.on .child = true → ∀ q r, q < n → r < n → q % 2 = r % 2 →
      fires color st p q = fires color st p r := by
    intro hx q r hq hr hqr
    unfold fires
    rw [hpx]
    cases x with
    | none => simp [Sync.on] at hx
    | some gk =>
      obtain ⟨g, k⟩ := gk
      cases g with
      | world => rfl
      | child =>
        have h1 := inGroup_child_iff n color hsys.2.2 p q hp hq
        have h2 := inGroup_child_iff n color hsys.2.2 p r hp hr
        show inGroup color .child p q = inGroup color .child p r
        rw [Bool.eq_iff_iff, h1, h2, hqr]
  refine ⟨by rw [length_fire, hlen], fun q hq => ?_, fun q r hq hr => ?_,
    fun q r hq hr hqr => ?_⟩
  · rw [procAt_fire _ _ _ _ (by omega)]
    split
    · have := hsuf q hq
      rw [List.mem_tails] at this ⊢
      exact (List.tail_suffix _).trans this
    · exact hsuf q hq
  · have h1 := pending_fire color st p q .world x (by omega) (hhead q (by omega))
    have h2 := pending_fire color st p r .world x (by omega) (hhead r (by omega))
    have := hw q r hq hr
    by_cases hx : x.on .world = true
    · simp only [hfw hx q, hfw hx r, hx, and_self, if_true] at h1 h2
      omega
    · simp [hx] at h1 h2
      omega
  · have h1 := pending_fire color st p q .child x (by omega) (hhead q (by omega))
    have h2 := pending_fire color st p r .child x (by omega) (hhead r (by omega))
    have := hc q r hq hr hqr
    by_cases hx : x.on .child = true
    · rw [hfc hx q r hq hr hqr] at h1
      omega
    · simp [hx] at h1 h2
      omega

theorem inv_reach (n : Nat) (color : Nat → Option Int) (init st : List (List Sync))
    (hsys : ParitySplit n color init) (hr : Reach color init st) : Inv n init st := by
  induction hr with
  | start => exact inv_init n color init hsys
  | step p _ hp hen ih => exact inv_step n color init _ hsys ih p (by rw [← ih.1]; exact hp) hen


theorem headOn_cons (g : Comm) (l : List Sync) (h : headOn g l = true) :
    ∃ k rest, l = some (g, k) :: rest := by
  cases l with
  | nil => simp [headOn] at h
  | cons x rest =>
    cases x with
    | none => simp [headOn] at h
    | some gk =>
      obtain ⟨c, k⟩ := gk
      have : c = g := by simpa [headOn] using h
      exact ⟨k, rest, by rw [this]⟩

/-- A state that satisfies the invariant and in which some process has not
returned has an enabled process. -/
theorem progress (n : Nat) (color : Nat → Option Int) (init st : List (List Sync))
    (hsys : ParitySplit n color init) (hinv : Inv n init st) (hne : allReturned st = false) :
    ∃ p, p < n ∧ enabled color st p = true := by
  obtain ⟨hlen, hsuf, hw, hc⟩ := hinv
  by_contra hno
  have hno2 : ∀ p, p < n → enabled color st p = false := by
    intro p hp
    by_contra h
    exact hno ⟨p, hp, by simpa using h⟩
  have hnone : ∀ q, q < n → (procAt st q).head? ≠ some none := by
    intro q hq h
    have := hno2 q hq
    unfold enabled at this
    cases hl : procAt st q with
    | nil => rw [hl] at h; simp at h
    | cons x rest =>
      rw [hl] at h this
      simp only [List.head?_cons, Option.some.injEq] at h
      subst h
      simp at this
  by_cases hch : ∃ q, q < n ∧ headOn .child (procAt st q) = true
  · obtain ⟨q, hq, hhq⟩ := hch
    obtain ⟨k, rest, hl⟩ := headOn_cons _ _ hhq
    have hen : enabled color st q = true := by
      unfold enabled
      rw [hl]
      simp only [List.all_eq_true, List.mem_range, Bool.or_eq_true, Bool.not_eq_true',
        beq_iff_eq]
      intro r hr
      by_cases hin : inGroup color .child q r = true
      · right
        have hqr : q % 2 = r % 2 :=
          (inGroup_child_iff n color hsys.2.2 q r hq (by omega)).mp hin
        have hag := agreeChild_of q r hqr _ _ _ _ (hsys.2.1 q hq) (hsys.2.1 r (by omega))
          (hsuf q hq) (hsuf r (by omega))
        unfold agreeChild at hag
        have e1 := hc r q (by omega) hq hqr.symm
        have e2 := hw r q (by omega) hq
        simp only [hhq, e1, e2, beq_self_eq_true, Bool.not_true, Bool.false_or, Bool.or_eq_true,
          beq_iff_eq] at hag
        rcases hag with hag | hag
        · exact absurd hag (hnone r (by omega))
        · rw [hag, hl]; rfl
      · left
        simpa using hin
    rw [hno2 q hq] at hen
    exact absurd hen (by simp)
  · have hex : ∃ p, p < n ∧ procAt st p ≠ [] := by
      by_contra hall
      have : allReturned st = true := by
        unfold allReturned
        simp only [List.all_eq_true, List.mem_range, List.isEmpty_iff]
        intro p hp
        by_contra hp2
        exact hall ⟨p, by omega, hp2⟩
      rw [this] at hne
      exact absurd hne (by simp)
    obtain ⟨p, hp, hpne⟩ := hex
    have hnoch : ∀ q, q < n → headOn .child (procAt st q) = false := by
      intro q hq
      by_contra h
      exact hch ⟨q, hq, by simpa using h⟩
    cases hl : procAt st p with
    | nil => exact hpne hl
    | cons x rest =>
      cases x with
      | none => exact hnone p hp (by rw [hl]; rfl)
      | some gk =>
        obtain ⟨g, k⟩ := gk
        cases g with
        | child =>
          have := hnoch p hp
          rw [hl] at this
          simp [headOn] at this
        | world =>
          have hen : enabled color st p = true := by
            unfold enabled
            rw [hl]
            simp only [List.all_eq_true, List.mem_range, Bool.or_eq_true, Bool.not_eq_true',
              beq_iff_eq]
            intro r hr
            right
            have hag := agreeWorld_of p r _ _ _ _ (hsys.2.1 p hp) (hsys.2.1 r (by omega))
              (hsuf p hp) (hsuf r (by omega))
            unfold agreeWorld at hag
            have e2 := hw r p (by omega) hp
            have hhp : headOn .world (procAt st p) = true := by rw [hl]; rfl
            simp only [hhp, e2, beq_self_eq_true, Bool.not_true, Bool.false_or,
              Bool.or_eq_true, beq_iff_eq, hnoch r (by omega)] at hag
            rcases hag with (hag | hag) | hag
            · exact absurd hag (hnone r (by omega))
            · exact absurd hag (by simp)
            · rw [hag, hl]; rfl
          rw [hno2 p hp] at hen
          exact absurd hen (by simp)

/-- Every step completes at least one call. -/
theorem remaining_fire (color : Nat → Option Int) (st : List (List Sync)) (p : Nat)
    (hp : p < st.length) (hen : enabled color st p = true) :
    remaining (fire color st p) < remaining st := by
  obtain ⟨x, rest, hpx, _⟩ := fires_head color st p hen
  unfold remaining
  rw [length_fire]
  apply List.sum_lt_sum
  · intro q hq
    rw [procAt_fire _ _ _ _ (List.mem_range.mp hq)]
    split
    · simp
    · exact le_refl _
  · refine ⟨p, List.mem_range.mpr hp, ?_⟩
    rw [procAt_fire _ _ _ _ hp, fires_self color st p hen, if_pos rfl, hpx]
    simp

theorem allReturned_of_remaining_zero (st : List (List Sync)) (h : remaining st = 0) :
    allReturned st = true := by
  unfold allReturned
  unfold remaining at h
  simp only [List.all_eq_true, List.mem_range, List.isEmpty_iff]
  intro p hp
  have := List.sum_eq_zero_iff.mp h ((procAt st p).length)
    (List.mem_map.mpr ⟨p, List.mem_range.mpr hp, rfl⟩)
  exact List.length_eq_zero.mp this

/-- With fuel for every remaining call, the scheduler runs a reachable state to
the state in which every process has returned. -/
theorem sched_allReturned (n : Nat) (color : Nat → Option Int) (init : List (List Sync))
    (hsys : ParitySplit n color init) :
    ∀ (fuel : Nat) (st : List (List Sync)), Reach color init st → remaining st ≤ fuel →
      allReturned (sched color fuel st) = true := by
  intro fuel
  induction fuel with
  | zero =>
    intro st _ hrem
    exact allReturned_of_remaining_zero st (by omega)
  | succ fuel ih =>
    intro st hr hrem
    have hinv := inv_reach n color init st hsys hr
    unfold sched
    cases hf : (List.range st.length).find? (enabled color st) with
    | none =>
      simp only
      by_contra hne
      obtain ⟨p, hp, hen⟩ := progress n color init st hsys hinv (by simpa using hne)
      rw [List.find?_eq_none] at hf
      exact hf p (List.mem_range.mpr (by rw [hinv.1]; exact hp)) hen
    | some p =>
      simp only
      have hp : p < st.length := List.mem_range.mp (List.mem_of_find?_eq_some hf)
      have hen : enabled color st p = true := List.find?_some hf
      have := remaining_fire color st p hp hen
      exact ih _ (Reach.step p hr hp hen) (by omega)

/-! ### Claims on `test_split_comm_access` -/

/-- C1: for every process count `n` and world rank `r < n`, the key the process
passes to the split is `r mod 2`, and it ends up in the same child group as
the process of rank `r2` iff `r` and `r2` have the same parity; on the
failure-free path its log shows the acting branch (file create and close) iff
`r` is even and the passive branch (barrier on the child group, no call on a
file) iff `r` is odd. -/
theorem split_partition_by_parity (ab : Fault → Bool) (n r : Nat) (_hr : r < n)
    (e : SplitEnv) (_hsize : e.mpi_size = n) (hrank : e.mpi_rank = r) :
    splitColor (runSplit ab e).ops = some ((r % 2 : Nat) : Int) ∧
    (∀ (r2 : Nat) (e2 : SplitEnv), r2 < n → e2.mpi_size = n → e2.mpi_rank = r2 →
      (sameChildGroup (runSplit ab e).ops (runSplit ab e2).ops = true ↔ r % 2 = r2 % 2)) ∧
    (e.ok →
      (actsOnFile (runSplit ab e).ops = true ↔ r % 2 = 0) ∧
      (passiveOnly (runSplit ab e).ops = true ↔ r % 2 = 1)) :=
  ⟨splitColor_of_rank ab e r hrank,
    fun r2 e2 _ _ hrank2 => sameChildGroup_iff ab e e2 r r2 hrank hrank2,
    fun hok => (branch_of_rank ab e r hrank hok).2⟩

/-- C1 on four processes: ranks 0 and 2 act, ranks 1 and 3 are passive. -/
theorem split_partition_by_parity_witness :
    actsOnFile (runSplit specAborts (splitEnvOf 4 0)).ops = true ∧
    passiveOnly (runSplit specAborts (splitEnvOf 4 1)).ops = true ∧
    actsOnFile (runSplit specAborts (splitEnvOf 4 2)).ops = true ∧
    passiveOnly (runSplit specAborts (splitEnvOf 4 3)).ops = true :=
  ⟨((split_partition_by_parity specAborts 4 0 (by decide) (splitEnvOf 4 0) rfl rfl).2.2
      (by decide)).1.mpr rfl,
    ((split_partition_by_parity specAborts 4 1 (by decide) (splitEnvOf 4 1) rfl rfl).2.2
      (by decide)).2.mpr rfl,
    ((split_partition_by_parity specAborts 4 2 (by decide) (splitEnvOf 4 2) rfl rfl).2.2
      (by decide)).1.mpr rfl,
    ((split_partition_by_parity specAborts 4 3 (by decide) (splitEnvOf 4 3) rfl rfl).2.2
      (by decide)).2.mpr rfl⟩

/-- C4: on the failure-free path, for every process count, every process issues
exactly one split and then one barrier on the world group; a passive process
(odd rank) issues on its child group one barrier and then the free, an acting
process (even rank) the file create, the file close and then the free, and no
barrier; hence any two processes issue the same collectives on the world
group, and the same collectives on the child group when they are members of
the same child group. -/
theorem same_group_same_collectives (ab : Fault → Bool) (n : Nat) (envs : Nat → SplitEnv)
    (hrank : ∀ r, r < n → (envs r).mpi_rank = r) (hok : ∀ r, r < n → (envs r).ok) :
    ∀ r, r < n →
      collectivesOn .world (runSplit ab (envs r)).log.calls = [.split, .barrier] ∧
      (r % 2 = 1 → collectivesOn .child (runSplit ab (envs r)).log.calls = [.barrier, .free]) ∧
      (r % 2 = 0 →
        collectivesOn .child (runSplit ab (envs r)).log.calls = [.fcreate, .fclose, .free]) ∧
      ∀ q, q < n →
        collectivesOn .world (runSplit ab (envs q)).log.calls =
          collectivesOn .world (runSplit ab (envs r)).log.calls ∧
        (sameChildGroup (runSplit ab (envs q)).ops (runSplit ab (envs r)).ops = true →
          collectivesOn .child (runSplit ab (envs q)).log.calls =
            collectivesOn .child (runSplit ab (envs r)).log.calls) := by
  have key : ∀ r, r < n →
      collectivesOn .world (runSplit ab (envs r)).log.calls = [.split, .barrier] ∧
      collectivesOn .child (runSplit ab (envs r)).log.calls =
        (if r % 2 = 1 then [.barrier, .free] else [.fcreate, .fclose, .free]) := by
    intro r hr
    rcases skeleton_of_rank ab (envs r) r (hrank r hr) (hok r hr) with
      ⟨h, hs⟩ | ⟨h, _, hs⟩ | ⟨h, _, hs⟩ <;> simp [collectivesOn, hs, h]
  intro r hr
  refine ⟨(key r hr).1, ?_, ?_, ?_⟩
  · intro h; rw [(key r hr).2, if_pos h]
  · intro h; rw [(key r hr).2, if_neg (by omega)]
  · intro q hq
    refine ⟨by rw [(key r hr).1, (key q hq).1], ?_⟩
    intro hsame
    have hpar : q % 2 = r % 2 :=
      (sameChildGroup_iff ab (envs q) (envs r) q r (hrank q hq) (hrank r hr)).mp hsame
    rw [(key r hr).2, (key q hq).2, hpar]

theorem same_group_same_collectives_witness :
    collectivesOn .child (runSplit specAborts (splitEnvOf 4 3)).log.calls = [.barrier, .free] :=
  (same_group_same_collectives specAborts 4 (splitEnvOf 4) (fun _ _ => rfl)
    (fun r hr => by
      have : r = 0 ∨ r = 1 ∨ r = 2 ∨ r = 3 := by omega
      rcases this with rfl | rfl | rfl | rfl <;> decide) 3 (by decide)).2.1 (by decide)

/-- C5, amended: a process of odd world rank issues no call on a file or policy
object (no file create, file close, policy-object creation or file delete) on
any path, so whether the target file exists is unchanged by it; on the
failure-free path the calls it issues are the size and rank inquiries on the
world group and on its child group and, apart from these inquiries, exactly
the split, one barrier on its child group, the free of the child group and
the barrier on the world group. -/
theorem passive_issues_no_file_op (ab : Fault → Bool) (r : Nat) (e : SplitEnv)
    (hrank : e.mpi_rank = r) (hodd : r % 2 = 1) :
    (runSplit ab e).ops.any Op.onFile = false ∧
    (∀ s : Bool, fileExistsAfter (runSplit ab e).ops s = s) ∧
    (e.ok →
      (runSplit ab e).ops =
        [.MPI_Comm_size .world, .MPI_Comm_rank .world, .MPI_Comm_split .world 1 r,
         .MPI_Comm_size .child, .MPI_Comm_rank .child, .MPI_Barrier .child,
         .MPI_Comm_free .child, .MPI_Barrier .world] ∧
      (runSplit ab e).ops.filter (fun o => !o.isInquiry) =
        [.MPI_Comm_split .world 1 r, .MPI_Barrier .child, .MPI_Comm_free .child,
         .MPI_Barrier .world]) := by
  have ht : Int.tmod e.mpi_rank 2 = 1 := by
    rcases tmod_rank_cases e r hrank with ⟨h, _⟩ | ⟨_, h⟩
    · omega
    · exact h
  have hno : (runSplit ab e).ops.any Op.onFile = false := by
    rw [List.any_eq_false]
    intro o ho
    obtain ⟨ev, hev, rfl⟩ := List.mem_map.mp ho
    have := exec_calls_sub ab (splitStmts e) Log.empty ev
      (by rw [← test_split_comm_access_eq]; exact hev)
    rcases this with h | h
    · simp [Log.empty] at h
    · simp [splitStmts, ht, callsOf] at h
      rcases h with h | h | h | h | h | h | h | h <;> simp [h, Op.onFile]
  refine ⟨hno, fileExistsAfter_of_no_file_op _ hno, ?_⟩
  intro hok
  rcases ops_of_rank ab e r hrank hok with ⟨_, ho⟩ | ⟨h, _⟩ | ⟨h, _⟩
  · simp [ho, Op.isInquiry]
  · omega
  · omega

theorem passive_issues_no_file_op_witness :
    (3 : Nat) % 2 = 1 ∧ (runSplit specAborts (splitEnvOf 4 3)).ops.any Op.onFile = false :=
  ⟨by decide, (passive_issues_no_file_op specAborts 3 (splitEnvOf 4 3) rfl (by decide)).1⟩

/-- C5 as stated fails at world rank 1 of 4: the passive process also issues the
size and rank inquiries on its child group, which are none of the four calls
the claim lists as the only ones. -/
theorem passive_also_inquires :
    Op.MPI_Comm_size .child ∈ (runSplit specAborts (splitEnvOf 4 1)).ops ∧
    Op.MPI_Comm_rank .child ∈ (runSplit specAborts (splitEnvOf 4 1)).ops ∧
    ¬ ∀ o ∈ (runSplit specAborts (splitEnvOf 4 1)).ops,
        o ∈ [Op.MPI_Comm_split .world 1 1, .MPI_Barrier .child, .MPI_Comm_free .child,
          .MPI_Barrier .world] := by
  decide

/-- C6: on the failure-free path every process, acting or passive, returns,
frees its child group exactly once and calls the barrier on the world group
exactly once; the free and that barrier are the last two calls, in that
order, so that the only call issued after the free is the barrier on the
world group and none uses the child group. -/
theorem free_then_world_barrier (ab : Fault → Bool) (e : SplitEnv) (r : Nat)
    (hrank : e.mpi_rank = r) (hok : e.ok) :
    (runSplit ab e).returned = true ∧
    (runSplit ab e).ops.count (.MPI_Comm_free .child) = 1 ∧
    (runSplit ab e).ops.count (.MPI_Barrier .world) = 1 ∧
    afterFree (runSplit ab e).ops = [.MPI_Barrier .world] ∧
    ∃ before, (runSplit ab e).ops = before ++ [.MPI_Comm_free .child, .MPI_Barrier .world] := by
  have hret : (runSplit ab e).returned = true := by
    rcases tmod_rank_cases e r hrank with ⟨_, ht⟩ | ⟨_, ht⟩
    · rw [runSplit_even ab e hok ht]; rfl
    · rw [runSplit_odd ab e hok (by rw [ht]; decide)]; rfl
  refine ⟨hret, ?_⟩
  rcases ops_of_rank ab e r hrank hok with ⟨_, ho⟩ | ⟨_, _, ho⟩ | ⟨_, _, ho⟩ <;> rw [ho]
  · exact ⟨by simp, by simp, by simp [afterFree],
      [.MPI_Comm_size .world, .MPI_Comm_rank .world, .MPI_Comm_split .world 1 r,
       .MPI_Comm_size .child, .MPI_Comm_rank .child, .MPI_Barrier .child], rfl⟩
  · exact ⟨by simp, by simp, by simp [afterFree],
      [.MPI_Comm_size .world, .MPI_Comm_rank .world, .MPI_Comm_split .world 0 r,
       .MPI_Comm_size .child, .MPI_Comm_rank .child, .MPI_Comm_rank .child,
       .create_faccess_plist .child, .H5Fcreate e.acc_tpl, .H5Pclose e.acc_tpl,
       .H5Fclose e.fid], rfl⟩
  · exact ⟨by simp, by simp, by simp [afterFree],
      [.MPI_Comm_size .world, .MPI_Comm_rank .world, .MPI_Comm_split .world 0 r,
       .MPI_Comm_size .child, .MPI_Comm_rank .child, .MPI_Comm_rank .child,
       .create_faccess_plist .child, .H5Fcreate e.acc_tpl, .H5Pclose e.acc_tpl,
       .H5Fclose e.fid, .MPI_File_delete], rfl⟩

/-- C6 at an acting and a passive process of four. -/
theorem free_then_world_barrier_witness :
    afterFree (runSplit specAborts (splitEnvOf 4 2)).ops = [.MPI_Barrier .world] ∧
    afterFree (runSplit specAborts (splitEnvOf 4 3)).ops = [.MPI_Barrier .world] :=
  ⟨(free_then_world_barrier specAborts (splitEnvOf 4 2) 2 rfl (by decide)).2.2.2.1,
    (free_then_world_barrier specAborts (splitEnvOf 4 3) 3 rfl (by decide)).2.2.2.1⟩

/-- C7: whatever `MPI_File_delete` returns, the recorded assertion failures,
whether the scenario returns and the calls issued are those of the run in
which the delete succeeds (the logs differ in the logged return value of the
delete only); on the failure-free path no failure is recorded and the
scenario returns, whatever the delete returns. -/
theorem delete_is_best_effort (ab : Fault → Bool) (e : SplitEnv) :
    (runSplit ab e).log.failures = (runSplit ab { e with mrc_delete := MPI_SUCCESS }).log.failures ∧
    (runSplit ab e).returned = (runSplit ab { e with mrc_delete := MPI_SUCCESS }).returned ∧
    (runSplit ab e).ops = (runSplit ab { e with mrc_delete := MPI_SUCCESS }).ops ∧
    (runSplit ab e).log.calls.map fixDelete =
      (runSplit ab { e with mrc_delete := MPI_SUCCESS }).log.calls ∧
    (e.ok → (runSplit ab e).log.failures = [] ∧ (runSplit ab e).returned = true) := by
  rw [runSplit_fixDelete]
  refine ⟨?_, ?_, ?_, ?_, ?_⟩
  · cases runSplit ab e <;> rfl
  · cases runSplit ab e <;> rfl
  · cases runSplit ab e <;>
      simp [Res.ops, Res.relabel, Res.log, Log.relabel, Function.comp_def, fixDelete_op]
  · cases runSplit ab e <;> rfl
  · intro hok
    by_cases ht : Int.tmod e.mpi_rank 2 = 0
    · rw [runSplit_even ab e hok ht]; exact ⟨rfl, rfl⟩
    · rw [runSplit_odd ab e hok ht]; exact ⟨rfl, rfl⟩

theorem delete_is_best_effort_witness :
    (runSplit specAborts { splitEnvOf 4 0 with mrc_delete := 1 }).log.failures = [] ∧
    (runSplit specAborts { splitEnvOf 4 0 with mrc_delete := 1 }).returned = true :=
  (delete_is_best_effort specAborts { splitEnvOf 4 0 with mrc_delete := 1 }).2.2.2.2 (by decide)

/-- C10: for every process count `n ≥ 1`, when the split orders child ranks by
world rank (an even world rank `r` gets child rank `r / 2`), on the
failure-free path the process of world rank 0 is the only one that issues the
file delete, it issues it once, and right after its own file close. -/
theorem delete_only_by_world_rank_zero (ab : Fault → Bool) (n : Nat) (_hn : 1 ≤ n)
    (envs : Nat → SplitEnv)
    (hrank : ∀ r, r < n → (envs r).mpi_rank = r)
    (hsub : ∀ r, r < n → r % 2 = 0 → (envs r).sub_mpi_rank = (r / 2 : Nat))
    (hok : ∀ r, r < n → (envs r).ok) :
    (∀ r, r < n → (Op.MPI_File_delete ∈ (runSplit ab (envs r)).ops ↔ r = 0)) ∧
    (∀ r, r < n → (runSplit ab (envs r)).ops.count .MPI_File_delete ≤ 1) ∧
    (List.range n).filter (fun r => (runSplit ab (envs r)).ops.contains .MPI_File_delete) = [0] ∧
    ∃ before after, (runSplit ab (envs 0)).ops =
      before ++ [.H5Fclose (envs 0).fid, .MPI_File_delete] ++ after ∧
      Op.MPI_File_delete ∉ before := by
  have key : ∀ r, r < n → (Op.MPI_File_delete ∈ (runSplit ab (envs r)).ops ↔ r = 0) := by
    intro r hr
    rcases ops_of_rank ab (envs r) r (hrank r hr) (hok r hr) with
      ⟨h, ho⟩ | ⟨h, hs, ho⟩ | ⟨h, hs, ho⟩
    · rw [ho]; simp; omega
    · rw [ho]; simp
      intro h0
      apply hs
      rw [hsub r hr h, h0]; rfl
    · rw [ho]; simp
      have := hsub r hr h
      rw [hs] at this
      omega
  refine ⟨key, ?_, ?_, ?_⟩
  · intro r hr
    rcases ops_of_rank ab (envs r) r (hrank r hr) (hok r hr) with
      ⟨_, ho⟩ | ⟨_, _, ho⟩ | ⟨_, _, ho⟩ <;> rw [ho] <;> simp
  · obtain ⟨m, rfl⟩ : ∃ m, n = m + 1 := ⟨n - 1, by omega⟩
    rw [List.range_succ_eq_map, List.filter_cons]
    have h0 : (runSplit ab (envs 0)).ops.contains Op.MPI_File_delete = true := by
      simpa using (key 0 (by omega)).mpr rfl
    rw [if_pos h0]
    congr 1
    rw [List.filter_eq_nil_iff]
    intro r hr
    obtain ⟨q, hq, rfl⟩ := List.mem_map.mp hr
    have hq2 : q + 1 < m + 1 := by simpa using hq
    simp only [List.contains_eq_any_beq, List.any_eq_true, beq_iff_eq, not_exists, not_and]
    intro o ho ho2
    subst ho2
    have := (key (q + 1) hq2).mp ho
    omega
  · have h0 : (0 : Nat) < n := by omega
    rcases ops_of_rank ab (envs 0) 0 (hrank 0 h0) (hok 0 h0) with
      ⟨h, _⟩ | ⟨h, hs, _⟩ | ⟨_, _, ho⟩
    · omega
    · exact absurd (by simpa using hsub 0 h0 h) hs
    · exact ⟨[.MPI_Comm_size .world, .MPI_Comm_rank .world, .MPI_Comm_split .world 0 (0 : Nat),
       .MPI_Comm_size .child, .MPI_Comm_rank .child, .MPI_Comm_rank .child,
       .create_faccess_plist .child, .H5Fcreate (envs 0).acc_tpl, .H5Pclose (envs 0).acc_tpl],
       [.MPI_Comm_free .child, .MPI_Barrier .world], by rw [ho]; rfl, by simp⟩

theorem delete_only_by_world_rank_zero_witness :
    (List.range 4).filter
      (fun r => (runSplit specAborts (splitEnvOf 4 r)).ops.contains .MPI_File_delete) = [0] :=
  (delete_only_by_world_rank_zero specAborts 4 (by decide) (splitEnvOf 4)
    (fun _ _ => rfl) (fun _ _ _ => rfl)
    (fun r hr => by
      have : r = 0 ∨ r = 1 ∨ r = 2 ∨ r = 3 := by omega
      rcases this with rfl | rfl | rfl | rfl <;> decide)).2.2.1

/-- The system of `n` processes running `test_split_comm_access` on the
failure-free path is split by parity. -/
theorem splitSystem_paritySplit (ab : Fault → Bool) (n : Nat) (envs : Nat → SplitEnv)
    (hrank : ∀ r, r < n → (envs r).mpi_rank = r) (hok : ∀ r, r < n → (envs r).ok) :
    ParitySplit n (splitColors ab envs) (splitSystem ab n envs) := by
  refine ⟨by simp [splitSystem], fun p hp => ?_, fun p hp => ?_⟩
  · unfold splitSystem
    rw [procAt_map_range _ _ _ hp]
    rcases skeleton_of_rank ab (envs p) p (hrank p hp) (hok p hp) with
      ⟨h, hs⟩ | ⟨h, _, hs⟩ | ⟨h, _, hs⟩ <;>
      simp [hs, skeletonsOf, h, oddSkeleton, evenSkeleton]
  · exact (branch_of_rank ab (envs p) p (hrank p hp) (hok p hp)).1

/-- C3: for every process count `n ≥ 2`, when every process runs
`test_split_comm_access` on the failure-free path against a runtime and an
engine whose collective calls complete once all members of the group argument
are at the matching call, no process blocks forever: the code of every process
returns once its calls return; in every state the system can get to, either
every process has returned or some call can complete; every completion leaves
fewer calls to complete; and the scheduler, given fuel for every call, ends
with every process returned. -/
theorem split_scenario_terminates (ab : Fault → Bool) (n : Nat) (_hn : 2 ≤ n)
    (envs : Nat → SplitEnv) (hrank : ∀ r, r < n → (envs r).mpi_rank = r)
    (hok : ∀ r, r < n → (envs r).ok) :
    (∀ p, p < n → (runSplit ab (envs p)).returned = true) ∧
    (∀ st, Reach (splitColors ab envs) (splitSystem ab n envs) st →
      allReturned st = true ∨ ∃ p, p < n ∧ enabled (splitColors ab envs) st p = true) ∧
    (∀ st p, p < st.length → enabled (splitColors ab envs) st p = true →
      remaining (fire (splitColors ab envs) st p) < remaining st) ∧
    allReturned (sched (splitColors ab envs) (remaining (splitSystem ab n envs))
      (splitSystem ab n envs)) = true := by
  have hsys := splitSystem_paritySplit ab n envs hrank hok
  refine ⟨fun p hp => ?_, fun st hr => ?_, fun st p hp hen => remaining_fire _ st p hp hen, ?_⟩
  · by_cases ht : Int.tmod (envs p).mpi_rank 2 = 0
    · rw [runSplit_even ab _ (hok p hp) ht]; rfl
    · rw [runSplit_odd ab _ (hok p hp) ht]; rfl
  · cases hall : allReturned st with
    | true => exact Or.inl rfl
    | false =>
      exact Or.inr (progress n _ _ st hsys (inv_reach n _ _ st hsys hr) hall)
  · exact sched_allReturned n _ _ hsys _ _ Reach.start (le_refl _)

/-- C3 on two processes: the scheduler ends with both returned. -/
theorem split_scenario_terminates_witness :
    allReturned (sched (splitColors specAborts (splitEnvOf 2))
      (remaining (splitSystem specAborts 2 (splitEnvOf 2)))
      (splitSystem specAborts 2 (splitEnvOf 2))) = true :=
  (split_scenario_terminates specAborts 2 (by decide) (splitEnvOf 2) (fun _ _ => rfl)
    (fun r hr => by
      have : r = 0 ∨ r = 1 := by omega
      rcases this with rfl | rfl <;> decide)).2.2.2

/-- The model does tell a hang: when one process of the child group of the even
ranks issues one more barrier on it than the other, the scheduler stops with
calls left that can never complete. -/
theorem extra_barrier_hangs :
    allReturned (sched (fun p => some ((p % 2 : Nat) : Int)) 100
      [[some (.child, .barrier), some (.child, .barrier), some (.world, .barrier)],
       [some (.child, .barrier), some (.world, .barrier)],
       [some (.child, .barrier), some (.world, .barrier)]]) = false := by decide

/-! ### Claims on `test_file_properties` -/

/-- C2: when every engine call succeeds, `test_file_properties` records no
assertion failure if and only if the eight flags the engine returns, in order
(writes, reads) after the default create, after the default reopen, after the
explicit open and from the policy derived from the open file handle, are
(false, false), (false, false), (true, true), (true, true); so any deviating
flag leaves a recorded failure, whatever `VRFY` does after a failure. -/
theorem flags_checked_exactly (ab : Fault → Bool) (e : PropEnv) (hok : e.engineOk) :
    (runProps ab e).log.failures = [] ↔ e.flagsExpected := by
  obtain ⟨⟨a1, a2, a3, a4, a5, a6⟩, ⟨b1, b2, b3, b4, b5⟩, ⟨c1, c2, c3, c4, c5, c6⟩,
    ⟨d1, d2, d3, d4, d5, d6⟩⟩ := hok
  rw [runProps, test_file_properties_eq, exec_failures_nil_iff]
  simp [propStmts, Stmt.holds, Log.empty, PropEnv.flagsExpected, a1, a2, a3, a4, a5, a6, b1, b2,
    b3, b4, b5, c1, c2, c3, c4, c5, c6, d1, d2, d3, d4, d5, d6]
  tauto

/-- C2 at concrete flags: the expected flags record nothing, one deviating flag
(reads after the default create) records a failure. -/
theorem flags_checked_exactly_witness :
    (runProps specAborts (propEnvOf false false false false true true true true)).log.failures
      = [] ∧
    (runProps specAborts (propEnvOf false true false false true true true true)).log.failures
      ≠ [] :=
  ⟨(flags_checked_exactly specAborts (propEnvOf false false false false true true true true)
      (by decide)).mpr (by decide),
    fun h => absurd ((flags_checked_exactly specAborts
      (propEnvOf false true false false true true true true) (by decide)).mp h) (by decide)⟩

/-- C8: when `VRFY` goes on after a policy mismatch (section 7 of the
specification) and every engine call succeeds, then whatever the eight flags
are the scenario returns and issues all of its calls, among them the close of
the file handle of each stage after the flags of that stage were queried; no
file handle is left open at the end; and the mismatches are recorded. -/
theorem mismatch_still_closes (ab : Fault → Bool) (e : PropEnv) (hab : ab .mismatch = false)
    (hok : e.engineOk) :
    (runProps ab e).returned = true ∧
    (runProps ab e).ops =
      [.MPI_Comm_size .world, .MPI_Comm_rank .world, .H5Pcreate,
       .H5Pset_fapl_mpio e.fapl_id .world, .H5Fcreate e.fapl_id,
       .H5Pget_coll_metadata_write e.fapl_id, .H5Pget_all_coll_metadata_ops e.fapl_id,
       .H5Fclose e.fid1,
       .H5Pset_fapl_mpio e.fapl_id .world, .H5Fopen e.fapl_id,
       .H5Pget_coll_metadata_write e.fapl_id, .H5Pget_all_coll_metadata_ops e.fapl_id,
       .H5Fclose e.fid2,
       .H5Pset_fapl_mpio e.fapl_id .world, .H5Pset_coll_metadata_write e.fapl_id true,
       .H5Pset_all_coll_metadata_ops e.fapl_id true, .H5Fopen e.fapl_id,
       .H5Pget_coll_metadata_write e.fapl_id, .H5Pget_all_coll_metadata_ops e.fapl_id,
       .H5Pclose e.fapl_id, .H5Fget_access_plist e.fid3,
       .H5Pget_coll_metadata_write e.fapl_id2, .H5Pget_all_coll_metadata_ops e.fapl_id2,
       .H5Fclose e.fid3, .H5Pclose e.fapl_id2] ∧
    (liveAfter (runProps ab e).log.calls).files = [] ∧
    ((runProps ab e).log.failures = [] ↔ e.flagsExpected) := by
  refine ⟨?_, ?_, ?_, ?_⟩
  · rw [runProps_no_stop ab e hok (Or.inl hab)]; rfl
  · rw [runProps_no_stop ab e hok (Or.inl hab)]; rfl
  · rw [runProps_no_stop ab e hok (Or.inl hab)]
    simp [Res.log, callsOf_propStmts, liveAfter, Live.step]
  · obtain ⟨⟨a1, a2, a3, a4, a5, a6⟩, ⟨b1, b2, b3, b4, b5⟩, ⟨c1, c2, c3, c4, c5, c6⟩,
      ⟨d1, d2, d3, d4, d5, d6⟩⟩ := hok
    rw [runProps, test_file_properties_eq, exec_failures_nil_iff]
    simp [propStmts, Stmt.holds, Log.empty, PropEnv.flagsExpected, a1, a2, a3, a4, a5, a6, b1, b2,
      b3, b4, b5, c1, c2, c3, c4, c5, c6, d1, d2, d3, d4, d5, d6]
    tauto

/-- C8 at flags that all deviate: the scenario returns and leaves no file handle
open. -/
theorem mismatch_still_closes_witness :
    (runProps specAborts (propEnvOf true true true true false false false false)).returned
      = true ∧
    (liveAfter (runProps specAborts
      (propEnvOf true true true true false false false false)).log.calls).files = [] :=
  ⟨(mismatch_still_closes specAborts (propEnvOf true true true true false false false false)
      rfl (by decide)).1,
    (mismatch_still_closes specAborts (propEnvOf true true true true false false false false)
      rfl (by decide)).2.2.1⟩

/-- The close after a mismatch rests on `VRFY` going on: were it to end the
process at a policy mismatch, a deviating flag after the default create would
leave the file handle of that stage open. -/
theorem mismatch_abort_leaves_file_open :
    (runProps (fun _ => true)
      (propEnvOf true false false false true true true true)).returned = false ∧
    (liveAfter (runProps (fun _ => true)
      (propEnvOf true false false false true true true true)).log.calls).files = [20] := by
  decide

/-- C9: on the failure-free path of `test_file_properties` the log ends with the
open of the explicit-open stage, the two flag queries on the policy object
used for it, the release of that policy object, the derivation of a fresh
policy object from the file handle that open returned, the two flag queries
on the fresh object, the close of that file handle and the release of the
fresh object, in this order, with no file handle open before that open; after
every call at most one file handle is open and no call so far used a handle
that was not live; at the end no handle is live. -/
theorem explicit_open_handle_kept (ab : Fault → Bool) (e : PropEnv) (hok : e.engineOk)
    (hflags : e.flagsExpected) :
    (runProps ab e).returned = true ∧
    (∃ before, (runProps ab e).log.calls = before ++
      [⟨.H5Fopen e.fapl_id, e.fid3⟩,
       ⟨.H5Pget_coll_metadata_write e.fapl_id, e.ret_get5⟩,
       ⟨.H5Pget_all_coll_metadata_ops e.fapl_id, e.ret_get6⟩,
       ⟨.H5Pclose e.fapl_id, e.ret_pclose1⟩,
       ⟨.H5Fget_access_plist e.fid3, e.fapl_id2⟩,
       ⟨.H5Pget_coll_metadata_write e.fapl_id2, e.ret_get7⟩,
       ⟨.H5Pget_all_coll_metadata_ops e.fapl_id2, e.ret_get8⟩,
       ⟨.H5Fclose e.fid3, e.ret_fclose3⟩,
       ⟨.H5Pclose e.fapl_id2, e.ret_pclose2⟩] ∧
      (liveAfter before).files = [] ∧ (liveAfter before).plists = [e.fapl_id]) ∧
    (liveStates ⟨[], [], true⟩ (runProps ab e).log.calls).all
      (fun s => s.sound && decide (s.files.length ≤ 1)) = true ∧
    liveAfter (runProps ab e).log.calls = ⟨[], [], true⟩ := by
  rw [runProps_no_stop ab e hok (Or.inr hflags)]
  refine ⟨rfl, ⟨(callsOf (propStmts e)).take 16, ?_, ?_, ?_⟩, ?_, ?_⟩
  · simp [Res.log, callsOf_propStmts]
  · simp [callsOf_propStmts, liveAfter, Live.step]
  · simp [callsOf_propStmts, liveAfter, Live.step]
  · simp [Res.log, callsOf_propStmts, liveStates, Live.step]
  · simp [Res.log, callsOf_propStmts, liveAfter, Live.step]

/-- C9 at a concrete failure-free environment. -/
theorem explicit_open_handle_kept_witness :
    (liveStates ⟨[], [], true⟩ (runProps specAborts
      (propEnvOf false false false false true true true true)).log.calls).all
      (fun s => s.sound && decide (s.files.length ≤ 1)) = true :=
  (explicit_open_handle_kept specAborts (propEnvOf false false false false true true true true)
    (by decide) (by decide)).2.2.1

end TFile
